import Mathlib

/-!
A shallow embedding, in Lean 4, of the recovery script
`scripts/recover_from_uploads.py` of the cloudimgs repository, together
with theorems settling the specification claims about it.

Modelling conventions, used throughout:

* Python strings are Lean `String`s; all string manipulation is done on
  the underlying `List Char` (the `data` field) through small executable
  helpers whose behaviour mirrors the corresponding Python operation
  (`str.split("/")`, `str.strip("/")`, `str.startswith(p)`, ...).
* `uuid.uuid4()` is modelled by a fresh-identifier counter (`nextId`):
  the only property the script relies on is that generated identifiers
  are distinct, which the counter provides deterministically.
* `hashlib.sha1(path).hexdigest()[:6]` (an external library call) is
  modelled by an uninterpreted function `sha1hex6 : String → String`
  carried in the environment; `mimetypes.guess_type` is likewise
  modelled by `guessType : String → Option String`, and `now_iso()`
  by a fixed string `now` (a run reads the clock per event, but no
  claim distinguishes the successive readings).
* The SQLite tables `albums` and `files` are Lean lists of records; the
  single SQL query executed during the walk (the slug-existence probe of
  `ensure_unique_slug`) becomes a membership test in the current album
   list, and INSERT / UPDATE statements become list operations.
* Python's truthiness tests on optional / string fields are modelled
  explicitly (`Option.isSome`, `≠ ""`), following the loader, which
  canonicalises falsy database values to `None` / `""` / `0`.
-/

namespace Cloudimgs

/-! ### Character-list string utilities -/

/-- Python `s.split(sep)` for a one-character separator: always returns at
least one piece, and `"".split(sep) == [""]`. -/
def splitOnChar (sep : Char) : List Char → List (List Char)
  | [] => [[]]
  | c :: rest =>
    match splitOnChar sep rest with
    | [] => [[]]
    | g :: gs => if c = sep then [] :: g :: gs else (c :: g) :: gs

/-- Python `s.strip(ch)` for a single strip character: drop every copy of
`ch` from both ends. -/
def stripCharL (ch : Char) (l : List Char) : List Char :=
  ((l.dropWhile (· = ch)).reverse.dropWhile (· = ch)).reverse

def stripChar (ch : Char) (s : String) : String := ⟨stripCharL ch s.data⟩

/-- Python `"/".join(pieces)` on character lists. -/
def joinSlashL : List (List Char) → List Char
  | [] => []
  | [g] => g
  | g :: g' :: gs => g ++ '/' :: joinSlashL (g' :: gs)

/-- Does the string start with the character `c`?  (Python `s.startswith(c)`
for a one-character operand.) -/
def headIs (c : Char) (s : String) : Bool :=
  match s.data with
  | c' :: _ => c' = c
  | [] => false

/-- Python `s.startswith(p)` for an arbitrary operand `p`. -/
def leadsWithL : List Char → List Char → Bool
  | [], _ => true
  | _ :: _, [] => false
  | p :: ps, c :: cs => p = c && leadsWithL ps cs

def leadsWith (p s : String) : Bool := leadsWithL p.data s.data

/-- Python `s.startswith("image/")`. -/
def startsImage (s : String) : Bool := leadsWith "image/" s

/-- ASCII decimal digit (the script's regexes only ever see ASCII keys;
Python's `\d` additionally matches non-ASCII decimal digits, which no
claim exercises). -/
def isDigitChar (c : Char) : Bool := '0' ≤ c && c ≤ '9'

/-! ### Path classifier (source lines 180-189 and 307-319) -/

/-- `re.fullmatch(r"\d{4}", s)`. -/
def fourDigits (g : List Char) : Bool := g.length = 4 && g.all isDigitChar

/-- `re.fullmatch(r"\d{1,2}", s)`. -/
def oneTwoDigits (g : List Char) : Bool :=
  (g.length = 1 || g.length = 2) && g.all isDigitChar

/-- `looks_like_sharded_upload` (source lines 180-189): the raw
`"/"`-split of the key has at least three pieces, the first piece is four
digits and the second is one or two digits. -/
def looks_like_sharded_upload (relKey : String) : Bool :=
  match splitOnChar '/' relKey.data with
  | p0 :: p1 :: _ :: _ => fourDigits p0 && oneTwoDigits p1
  | _ => false

/-- The components of `pathlib.PurePosixPath(s)`: the `"/"`-split with
empty pieces and `"."` pieces removed (pathlib's normalisation; `".."`
components are kept). -/
def pathParts (s : String) : List (List Char) :=
  (splitOnChar '/' s.data).filter (fun g => g ≠ [] && g ≠ ['.'])

/-- `str(pathlib.Path(s).parent)` for a POSIX path string `s`: drop the
last component; a rootless path with no remaining component renders as
`"."`, a rooted one as `"/"`. -/
def parentStr (s : String) : String :=
  let ps := (pathParts s).dropLast
  if headIs '/' s then ⟨'/' :: joinSlashL ps⟩
  else if ps.isEmpty then "." else ⟨joinSlashL ps⟩

/-- Album-assignment mode (`--album-mode`), an enumeration in the script's
CLI, so `decide_album_path` is total here and the `raise ValueError`
branch is unreachable. -/
inductive AlbumMode where
  | auto | byDir | nomode
deriving DecidableEq, Repr

/-- `decide_album_path` (source lines 307-319).  The
`.replace("\\", "/")` of the source is the identity on POSIX-style keys
(which contain no backslash); the model is POSIX. -/
def decide_album_path (relKey : String) (mode : AlbumMode) : Option String :=
  let parent := parentStr relKey
  if parent = "." then none
  else
    match mode with
    | .nomode => none
    | .byDir => some ("/" ++ stripChar '/' parent)
    | .auto =>
      if looks_like_sharded_upload relKey then none
      else some ("/" ++ stripChar '/' parent)

/-! ### Decimal numerals: `Nat.repr` is injective

The slug allocator disambiguates collisions with `f"{base_slug}-{counter}"`;
termination arguments need distinctness of these candidates, hence
injectivity of the decimal rendering. -/

/-- Value of a decimal digit character. -/
def charToDigit (c : Char) : Nat := c.toNat - '0'.toNat

/-- Value of a big-endian decimal digit string. -/
def digitsVal (l : List Char) : Nat := l.foldl (fun acc c => 10 * acc + charToDigit c) 0

theorem charToDigit_digitChar (d : Nat) (hd : d < 10) :
    charToDigit (Nat.digitChar d) = d := by
  interval_cases d <;> rfl

theorem toDigitsCore_eq_append (b : Nat) :
    ∀ (fuel n : Nat) (ds : List Char),
      Nat.toDigitsCore b fuel n ds = Nat.toDigitsCore b fuel n [] ++ ds := by
  intro fuel
  induction fuel with
  | zero => intro n ds; rfl
  | succ fuel ih =>
    intro n ds
    simp only [Nat.toDigitsCore]
    by_cases h : n / b = 0
    · simp [h]
    · simp only [h, if_false]
      rw [ih (n / b) (Nat.digitChar (n % b) :: ds), ih (n / b) [Nat.digitChar (n % b)]]
      simp

theorem digitsVal_append_one (l : List Char) (c : Char) :
    digitsVal (l ++ [c]) = 10 * digitsVal l + charToDigit c := by
  simp [digitsVal, List.foldl_append]

theorem digitsVal_toDigitsCore :
    ∀ (fuel n : Nat), n < fuel → digitsVal (Nat.toDigitsCore 10 fuel n []) = n := by
  intro fuel
  induction fuel with
  | zero => intro n h; omega
  | succ fuel ih =>
    intro n h
    simp only [Nat.toDigitsCore]
    by_cases hz : n / 10 = 0
    · have hn : n < 10 := by omega
      simp only [hz, if_true]
      have : digitsVal [Nat.digitChar (n % 10)] = charToDigit (Nat.digitChar (n % 10)) := by
        simp [digitsVal]
      rw [this, charToDigit_digitChar _ (Nat.mod_lt _ (by omega))]
      omega
    · have h10 : 10 ≤ n := by
        by_contra hlt
        exact hz (Nat.div_eq_of_lt (by omega))
      have hdiv : n / 10 < fuel := by
        have : n / 10 < n := Nat.div_lt_self (by omega) (by omega)
        omega
      simp only [hz, if_false]
      rw [toDigitsCore_eq_append, digitsVal_append_one, ih _ hdiv,
        charToDigit_digitChar _ (Nat.mod_lt _ (by omega))]
      omega

theorem repr_data (n : Nat) : (Nat.repr n).data = Nat.toDigitsCore 10 (n + 1) n [] := rfl

theorem digitsVal_repr (n : Nat) : digitsVal (Nat.repr n).data = n := by
  rw [repr_data]; exact digitsVal_toDigitsCore (n + 1) n (Nat.lt_succ_self n)

theorem natRepr_injective : Function.Injective Nat.repr := by
  intro a b h
  have := congrArg (fun s : String => digitsVal s.data) h
  simpa [digitsVal_repr] using this

/-! ### String append helpers -/

theorem strData_append (s t : String) : (s ++ t).data = s.data ++ t.data := by
  cases s; cases t; rfl

theorem strAppend_left_cancel {s t t' : String} (h : s ++ t = s ++ t') : t = t' := by
  apply String.ext
  have := congrArg String.data h
  rw [strData_append, strData_append] at this
  exact List.append_cancel_left this

theorem strAppend_ne_empty_of_right (s t : String) (h : t.data ≠ []) : s ++ t ≠ "" := by
  intro he
  have := congrArg String.data he
  rw [strData_append] at this
  rcases List.append_eq_nil.mp this with ⟨-, h2⟩
  exact h h2

/-! ### Slug allocator (source lines 215-236)

The `while True` probe loop of `ensure_unique_slug` is modelled with
explicit fuel; `slugFuel` (two more than the combined size of the
persisted-slug table and the in-memory slug set) is proved sufficient
(`slugLoop_isSome` below), so the `getD` fallback of the total wrapper is
never reached. -/

/-- One probe loop: `candidate` free in both the persisted table and the
in-memory set → register and return; otherwise advance the counter and
retry with `f"{base_slug}-{counter}"`. -/
def slugLoop (persisted cache : List String) (base : String) :
    String → Nat → Nat → Option (String × List String)
  | _, _, 0 => none
  | cand, counter, fuel + 1 =>
    if cand ∈ persisted ∨ cand ∈ cache then
      slugLoop persisted cache base (base ++ "-" ++ Nat.repr (counter + 1)) (counter + 1) fuel
    else some (cand, cand :: cache)

def slugFuel (persisted cache : List String) : Nat := persisted.length + cache.length + 2

/-- The candidate before the loop: the base slug, hash-disambiguated when
the base is already known in this run (`digest` stands for
`hashlib.sha1(album_path.encode()).hexdigest()[:6]`). -/
def firstCandidate (cache : List String) (base digest : String) : String :=
  if base ∈ cache then base ++ "-" ++ digest else base

/-- `ensure_unique_slug` (source lines 215-236), returning the chosen slug
and the updated in-memory slug set. -/
def ensure_unique_slug (persisted cache : List String) (base digest : String) :
    String × List String :=
  (slugLoop persisted cache base (firstCandidate cache base digest) 1
      (slugFuel persisted cache)).getD (base, cache)

/-- The `i`-th candidate probed by the loop when it starts at `cand` with
counter `counter`. -/
def probeCand (base cand : String) (counter : Nat) : Nat → String
  | 0 => cand
  | i + 1 => base ++ "-" ++ Nat.repr (counter + i + 1)

theorem slugLoop_some_spec (persisted cache : List String) (base : String) :
    ∀ (fuel : Nat) (cand : String) (counter : Nat) (r : String × List String),
      slugLoop persisted cache base cand counter fuel = some r →
      r.1 ∉ persisted ∧ r.1 ∉ cache ∧ r.2 = r.1 :: cache := by
  intro fuel
  induction fuel with
  | zero => intro cand counter r h; simp [slugLoop] at h
  | succ fuel ih =>
    intro cand counter r h
    by_cases hocc : cand ∈ persisted ∨ cand ∈ cache
    · simp only [slugLoop, if_pos hocc] at h
      exact ih _ _ _ h
    · simp only [slugLoop, if_neg hocc] at h
      push_neg at hocc
      cases h
      exact ⟨hocc.1, hocc.2, rfl⟩

theorem slugLoop_none_probe (persisted cache : List String) (base : String) :
    ∀ (fuel : Nat) (cand : String) (counter : Nat),
      slugLoop persisted cache base cand counter fuel = none →
      ∀ i < fuel, probeCand base cand counter i ∈ persisted ∨
        probeCand base cand counter i ∈ cache := by
  intro fuel
  induction fuel with
  | zero => intro cand counter _ i hi; omega
  | succ fuel ih =>
    intro cand counter h i hi
    by_cases hocc : cand ∈ persisted ∨ cand ∈ cache
    · simp only [slugLoop, if_pos hocc] at h
      match i with
      | 0 => exact hocc
      | j + 1 =>
        have hj : j < fuel := by omega
        have := ih _ _ h j hj
        match j with
        | 0 => simpa [probeCand] using this
        | k + 1 =>
          have harg : counter + 1 + k + 1 = counter + (k + 1) + 1 := by omega
          simpa [probeCand, harg] using this
    · simp [slugLoop, if_neg hocc] at h

theorem slugLoop_isSome (persisted cache : List String) (base cand : String) :
    (slugLoop persisted cache base cand 1 (slugFuel persisted cache)).isSome := by
  rw [Option.isSome_iff_ne_none]
  intro hnone
  have hall := slugLoop_none_probe persisted cache base _ cand 1 hnone
  set n := persisted.length + cache.length with hn
  -- the numeric candidates probed at indices 1..n+1 are n+1 distinct
  -- strings, all lying in the n-element list persisted ++ cache
  have hinj : Function.Injective (fun i : Nat => base ++ "-" ++ Nat.repr (1 + i + 1)) := by
    intro i j hij
    have h1 : (base ++ "-") ++ Nat.repr (1 + i + 1) = (base ++ "-") ++ Nat.repr (1 + j + 1) := hij
    have := natRepr_injective (strAppend_left_cancel h1)
    omega
  have hnodup : ((List.range (n + 1)).map
      (fun i : Nat => base ++ "-" ++ Nat.repr (1 + i + 1))).Nodup :=
    (List.nodup_range _).map hinj
  have hsub : ((List.range (n + 1)).map
      (fun i : Nat => base ++ "-" ++ Nat.repr (1 + i + 1))) ⊆ persisted ++ cache := by
    intro s hs
    rcases List.mem_map.mp hs with ⟨i, hi, rfl⟩
    have hilt : i + 1 < slugFuel persisted cache := by
      have := List.mem_range.mp hi
      simp only [slugFuel]
      omega
    have := hall (i + 1) hilt
    rcases this with h1 | h2
    · exact List.mem_append.mpr (Or.inl h1)
    · exact List.mem_append.mpr (Or.inr h2)
  have hlen := (hnodup.subperm hsub).length_le
  rw [List.length_map, List.length_range, List.length_append] at hlen
  omega

theorem ensure_unique_slug_spec (persisted cache : List String) (base digest : String) :
    (ensure_unique_slug persisted cache base digest).1 ∉ persisted ∧
    (ensure_unique_slug persisted cache base digest).1 ∉ cache ∧
    (ensure_unique_slug persisted cache base digest).2 =
      (ensure_unique_slug persisted cache base digest).1 :: cache := by
  have hs := slugLoop_isSome persisted cache base (firstCandidate cache base digest)
  rcases Option.isSome_iff_exists.mp hs with ⟨r, hr⟩
  have := slugLoop_some_spec persisted cache base _ _ _ _ hr
  simp only [ensure_unique_slug, hr, Option.getD_some]
  exact this

/-! ### `slugify` (source lines 76-80)

`\w` with `re.UNICODE` is approximated by ASCII alphanumerics, `_`, and
the CJK range the pattern names explicitly; no claim depends on the
treatment of other scripts. -/

def isWordChar (c : Char) : Bool :=
  c.isAlphanum || c = '_' || (0x4e00 ≤ c.toNat && c.toNat ≤ 0x9fff)

/-- Collapse adjacent dashes: applied after every non-word character has
been replaced by a dash, this coincides with the regex substitution that
maps each maximal non-word run to a single dash. -/
def dedupDash : List Char → List Char
  | [] => []
  | [c] => [c]
  | c :: d :: rest =>
    if c = '-' && d = '-' then dedupDash (d :: rest) else c :: dedupDash (d :: rest)

def stripAnyL (chs : List Char) (l : List Char) : List Char :=
  ((l.dropWhile (chs.contains ·)).reverse.dropWhile (chs.contains ·)).reverse

def slugify (text : String) : String :=
  let trimmed := ((text.data.dropWhile Char.isWhitespace).reverse.dropWhile
    Char.isWhitespace).reverse
  let lowered := trimmed.map Char.toLower
  let subbed := dedupDash (lowered.map (fun c => if isWordChar c then c else '-'))
  let stripped := stripAnyL ['-', '_'] subbed
  if stripped = [] then "album" else ⟨stripped⟩

/-! ### Data model: the `albums` and `files` tables, snapshot rows,
and the run-scoped context (source lines 86-135, 239-256) -/

structure Album where
  id : Nat
  name : String
  slug : String
  parentId : Option Nat
  isPublic : Bool
  path : String
  createdAt : String
  updatedAt : String
deriving DecidableEq, Repr

structure FileRow where
  id : Nat
  key : String
  originalName : String
  size : Nat
  mimeType : String
  width : Option Nat
  height : Option Nat
  thumbhash : Option String
  tags : String
  caption : Option String
  semanticDescription : Option String
  aliases : String
  annotationUpdatedAt : Option String
  exifData : Option String
  albumId : Option Nat
  createdAt : String
  updatedAt : String
deriving DecidableEq, Repr

structure DB where
  albums : List Album
  files : List FileRow
deriving DecidableEq, Repr

def albumSlugs (db : DB) : List String := db.albums.map (·.slug)
def albumPaths (db : DB) : List String := db.albums.map (·.path)
def fileKeys (db : DB) : List String := db.files.map (·.key)

/-- The per-item snapshot loaded at run start (source lines 250-256);
the loader canonicalises falsy column values, so `albumId` is `none`
where the row held NULL or `""`. -/
structure ExistingFileRow where
  id : Nat
  albumId : Option Nat
  originalName : String
  size : Nat
  mimeType : String
deriving DecidableEq, Repr

/-- `RecoveryContext` (source lines 239-247), plus the fresh-identifier
counter standing in for `uuid.uuid4()`. -/
structure RecoveryContext where
  dryRun : Bool
  publicAlbums : Bool
  album_cache : List (String × Nat)
  slug_cache : List String
  album_ids : List Nat
  created_albums : Nat
  nextId : Nat
deriving DecidableEq, Repr

/-- Association-list lookup with latest-binding-wins, matching a Python
dict in which later assignments shadow earlier ones (updates are consed
at the head). -/
def lookupAssoc {α : Type} (m : List (String × α)) (k : String) : Option α :=
  (m.find? (fun e => e.1 == k)).map (·.2)

def lookupPath (cache : List (String × Nat)) (p : String) : Option Nat :=
  lookupAssoc cache p

/-- External collaborators: `mimetypes.guess_type`, the sha1 hex digest,
and the wall clock. -/
structure Env where
  guessType : String → Option String
  sha1hex6 : String → String
  now : String

/-! ### MIME classification (source lines 154-177) -/

def ALLOWED_EXTENSIONS : List String :=
  [".jpg", ".jpeg", ".png", ".gif", ".webp", ".avif", ".bmp", ".svg"]

/-- Final path component (`full_path.name` / the last raw `/`-piece of
the storage key). -/
def lastSegL (s : String) : List Char := (splitOnChar '/' s.data).getLastD []

def fileNameOf (key : String) : String := ⟨lastSegL key⟩

/-- `pathlib` suffix rule: the final component's portion from its last
dot, provided that dot is neither the first nor the last character. -/
def suffixL (name : List Char) : List Char :=
  let rev := name.reverse
  let tailRev := rev.takeWhile (· ≠ '.')
  if tailRev.length = rev.length then []
  else if 0 < name.length - 1 - tailRev.length && tailRev ≠ [] then
    '.' :: tailRev.reverse
  else []

/-- `path.suffix.lower()`. -/
def suffixOf (key : String) : String := ⟨(suffixL (lastSegL key)).map Char.toLower⟩

/-- `is_image_file` (source lines 154-159). -/
def is_image_file (env : Env) (key : String) : Bool :=
  if suffixOf key ∈ ALLOWED_EXTENSIONS then true
  else
    match env.guessType key with
    | some m => startsImage m
    | none => false

def fallback_map : List (String × String) :=
  [(".jpg", "image/jpeg"), (".jpeg", "image/jpeg"), (".png", "image/png"),
   (".gif", "image/gif"), (".webp", "image/webp"), (".avif", "image/avif"),
   (".bmp", "image/bmp"), (".svg", "image/svg+xml")]

/-- `guess_mime` (source lines 162-177). -/
def guess_mime (env : Env) (key : String) : String :=
  let fb := (lookupAssoc fallback_map (suffixOf key)).getD "application/octet-stream"
  match env.guessType key with
  | some m => if startsImage m then m else fb
  | none => fb

/-! ### Container hierarchy builder (source lines 259-304) -/

/-- `album_path.strip("/").split("/")` with falsy pieces dropped. -/
def albumPathParts (s : String) : List String :=
  ((splitOnChar '/' (stripCharL '/' s.data)).filter (· ≠ [])).map
    (fun g => (⟨g⟩ : String))

def joinSlashStr : List String → String
  | [] => ""
  | [a] => a
  | a :: b :: rest => a ++ "/" ++ joinSlashStr (b :: rest)

def normalizeAlbumPath (albumPath : String) : String :=
  "/" ++ joinSlashStr (albumPathParts albumPath)

def mkAlbum (aid : Nat) (seg slug : String) (parent : Option Nat) (isPub : Bool)
    (path ts : String) : Album :=
  { id := aid, name := seg, slug := slug, parentId := parent, isPublic := isPub,
    path := path, createdAt := ts, updatedAt := ts }

/-- `current = f"{current}/{segment}" if current else f"/{segment}"`. -/
def chainCur (current seg : String) : String :=
  if current = "" then "/" ++ seg else current ++ "/" ++ seg

/-- One iteration of the segment walk of `ensure_album_chain`: resolve
`cur` through the path cache, or synthesise a new container (fresh id,
collision-free slug, parent link, inherited visibility, path `cur`,
timestamps), persist it unless previewing, and register it in the
caches.  Returns the updated store and context and the resolved id. -/
def chainStep (env : Env) (db : DB) (ctx : RecoveryContext) (parent : Option Nat)
    (seg cur : String) : DB × RecoveryContext × Nat :=
  match lookupPath ctx.album_cache cur with
  | some aid => (db, ctx, aid)
  | none =>
    let aid := ctx.nextId
    let su := ensure_unique_slug (albumSlugs db) ctx.slug_cache (slugify seg)
      (env.sha1hex6 cur)
    let alb := mkAlbum aid seg su.1 parent ctx.publicAlbums cur env.now
    let db' := if ctx.dryRun then db else { db with albums := db.albums ++ [alb] }
    let ctx' := { ctx with
      album_cache := (cur, aid) :: ctx.album_cache,
      slug_cache := su.2,
      album_ids := aid :: ctx.album_ids,
      created_albums := ctx.created_albums + 1,
      nextId := ctx.nextId + 1 }
    (db', ctx', aid)

/-- The per-segment walk of `ensure_album_chain`.  The source iterates
over `normalized.strip("/").split("/")`; since the non-empty parts are
slash-free, that re-split returns exactly those parts — except when
there are none, where stripping `"/"` leaves `""`, whose split is
`[""]` (so Python would walk a single empty segment); the caller below
reproduces that with `if parts.isEmpty then [""] else parts`. -/
def chainLoop (env : Env) :
    List String → DB → RecoveryContext → Option Nat → String → DB × RecoveryContext
  | [], db, ctx, _, _ => (db, ctx)
  | seg :: rest, db, ctx, parent, current =>
    let cur := chainCur current seg
    let s := chainStep env db ctx parent seg cur
    chainLoop env rest s.1 s.2.1 (some s.2.2) cur

/-- `ensure_album_chain` (source lines 259-304). -/
def ensure_album_chain (env : Env) (db : DB) (ctx : RecoveryContext)
    (albumPath : String) : DB × RecoveryContext × Option Nat :=
  if albumPath = "" ∨ albumPath = "/" then (db, ctx, none)
  else
    let parts := albumPathParts albumPath
    let normalized := normalizeAlbumPath albumPath
    match lookupPath ctx.album_cache normalized with
    | some aid => (db, ctx, some aid)
    | none =>
      let segs := if parts.isEmpty then [""] else parts
      let r := chainLoop env segs db ctx none ""
      (r.1, r.2, lookupPath r.2.album_cache normalized)

/-! ### Per-file repair logic (source lines 322-374) -/

/-- A filesystem entry as the walk presents it: storage key (relative
POSIX path) and observed byte size. -/
structure FsFile where
  key : String
  size : Nat
deriving DecidableEq, Repr

/-- `target_album_id` after the unattached-decision override: in auto
mode sharded keys map to no container, and the existing assignment is
kept rather than cleared. -/
def repairTarget (existing : ExistingFileRow) (targetAlbumId0 : Option Nat) :
    Option Nat :=
  match targetAlbumId0 with
  | none => existing.albumId
  | some t => some t

/-- `existing_album_id_valid` of the source. -/
def repairValid (ctx : RecoveryContext) (existing : ExistingFileRow) : Bool :=
  match existing.albumId with
  | none => true
  | some a => ctx.album_ids.contains a

/-- `needs_update` of the source, stated over the already-resolved
target. -/
def repairNeedsUpdate (env : Env) (ctx : RecoveryContext)
    (existing : ExistingFileRow) (f : FsFile) (target : Option Nat) : Bool :=
  (existing.albumId != target) ||
  (existing.size != f.size) ||
  (existing.originalName != fileNameOf f.key) ||
  !(startsImage existing.mimeType) ||
  ((existing.mimeType != "") && (existing.mimeType != guess_mime env f.key)) ||
  (existing.albumId.isSome && !(repairValid ctx existing))

/-- The UPDATE statement's effect on one row (`WHERE id = ?`). -/
def repairApply (env : Env) (existing : ExistingFileRow) (f : FsFile)
    (target : Option Nat) (r : FileRow) : FileRow :=
  if r.id = existing.id then
    { r with albumId := target, originalName := fileNameOf f.key,
             size := f.size, mimeType := guess_mime env f.key,
             updatedAt := env.now }
  else r

/-- The store after the UPDATE has been applied to the `files` table. -/
def repairUpdatedDB (env : Env) (existing : ExistingFileRow) (f : FsFile)
    (target : Option Nat) (db : DB) : DB :=
  { db with files := db.files.map (repairApply env existing f target) }

/-- `repair_existing_file` (source lines 322-374): returns whether an
update occurred, and the resulting `files` table state. -/
def repair_existing_file (env : Env) (ctx : RecoveryContext) (db : DB)
    (existing : ExistingFileRow) (f : FsFile) (targetAlbumId0 : Option Nat) :
    Bool × DB :=
  let target := repairTarget existing targetAlbumId0
  if !(repairNeedsUpdate env ctx existing f target) then (false, db)
  else if ctx.dryRun then (true, db)
  else (true, repairUpdatedDB env existing f target db)

/-! ### Catalog snapshot loader (source lines 377-408) -/

structure LoadedState where
  album_cache : List (String × Nat)
  slug_cache : List String
  existing_keys : List String
  existing_files : List (String × ExistingFileRow)
  album_ids : List Nat
deriving DecidableEq, Repr

/-- `load_existing_state` (source lines 377-408).  Identifiers are
opaque non-empty tokens in the source (`str(uuid4())`), so the `if
album_id:` truthiness filter never rejects one here. -/
def load_existing_state (db : DB) : LoadedState :=
  { album_cache := db.albums.foldl
      (fun m a => if a.path ≠ "" then (a.path, a.id) :: m else m) [],
    slug_cache := db.albums.foldl
      (fun l a => if a.slug ≠ "" then a.slug :: l else l) [],
    existing_keys := db.files.map (·.key),
    existing_files := db.files.foldl (fun m r =>
      (r.key, { id := r.id, albumId := r.albumId, originalName := r.originalName,
                size := r.size, mimeType := r.mimeType }) :: m) [],
    album_ids := db.albums.map (·.id) }

/-! ### Reconciliation driver (source lines 411-534, per-file body 462-518) -/

structure RunStats where
  scanned : Nat
  skippedNonImage : Nat
  skippedExisting : Nat
  repairedExisting : Nat
  insertedFiles : Nat
  failedFiles : Nat
deriving DecidableEq, Repr

structure RunConfig where
  albumMode : AlbumMode
  dryRun : Bool
  publicAlbums : Bool
  repairExisting : Bool
deriving DecidableEq, Repr

structure RunState where
  db : DB
  ctx : RecoveryContext
  existingKeys : List String
  stats : RunStats
deriving DecidableEq, Repr

/-- Steps 1-3 of the per-file logic: derive the target container path
and resolve it through the hierarchy builder (unattached files resolve
to no container without touching the builder). -/
def chainOutcome (cfg : RunConfig) (env : Env) (st : RunState) (f : FsFile) :
    DB × RecoveryContext × Option Nat :=
  match decide_album_path f.key cfg.albumMode with
  | none => (st.db, st.ctx, none)
  | some p => ensure_album_chain env st.db st.ctx p

/-- Step 4: the key is already catalogued — count skipped-existing and
repair when enabled and a snapshot row exists. -/
def skipExistingBranch (cfg : RunConfig) (env : Env)
    (efiles : List (String × ExistingFileRow)) (st : RunState) (f : FsFile)
    (db1 : DB) (ctx1 : RecoveryContext) (albumId : Option Nat)
    (stats0 : RunStats) : RunState :=
  let stats1 := { stats0 with skippedExisting := stats0.skippedExisting + 1 }
  if cfg.repairExisting then
    match lookupAssoc efiles f.key with
    | some existing =>
      let rr := repair_existing_file env ctx1 db1 existing f albumId
      let stats2 := if rr.1 then
          { stats1 with repairedExisting := stats1.repairedExisting + 1 }
        else stats1
      { db := rr.2, ctx := ctx1, existingKeys := st.existingKeys, stats := stats2 }
    | none => { db := db1, ctx := ctx1, existingKeys := st.existingKeys, stats := stats1 }
  else { db := db1, ctx := ctx1, existingKeys := st.existingKeys, stats := stats1 }

/-- The row synthesised for a newly catalogued file (the INSERT's
values: empty pass-through metadata, current timestamps). -/
def newFileRow (env : Env) (f : FsFile) (fileId : Nat) (albumId : Option Nat) :
    FileRow :=
  { id := fileId, key := f.key, originalName := fileNameOf f.key,
    size := f.size, mimeType := guess_mime env f.key,
    width := none, height := none, thumbhash := none,
    tags := "[]", caption := none, semanticDescription := none,
    aliases := "[]", annotationUpdatedAt := none, exifData := none,
    albumId := albumId, createdAt := env.now, updatedAt := env.now }

/-- Step 5: synthesise and persist a new item row (suppressed when
previewing), register the key, and count it inserted. -/
def insertBranch (cfg : RunConfig) (env : Env) (st : RunState) (f : FsFile)
    (db1 : DB) (ctx1 : RecoveryContext) (albumId : Option Nat)
    (stats0 : RunStats) : RunState :=
  let row := newFileRow env f ctx1.nextId albumId
  let ctx2 := { ctx1 with nextId := ctx1.nextId + 1 }
  let db2 := if cfg.dryRun then db1 else { db1 with files := db1.files ++ [row] }
  { db := db2, ctx := ctx2, existingKeys := f.key :: st.existingKeys,
    stats := { stats0 with insertedFiles := stats0.insertedFiles + 1 } }

/-- One iteration of the walk loop (source lines 462-518).  I/O failures
(`stat`, constraint violations) are outside the model, so the
`failed_files` counter never advances here. -/
def processFile (cfg : RunConfig) (env : Env)
    (efiles : List (String × ExistingFileRow)) (st : RunState) (f : FsFile) :
    RunState :=
  let stats0 := { st.stats with scanned := st.stats.scanned + 1 }
  if ¬ is_image_file env f.key then
    { st with stats := { stats0 with skippedNonImage := stats0.skippedNonImage + 1 } }
  else
    let step := chainOutcome cfg env st f
    if f.key ∈ st.existingKeys then
      skipExistingBranch cfg env efiles st f step.1 step.2.1 step.2.2 stats0
    else
      insertBranch cfg env st f step.1 step.2.1 step.2.2 stats0

def initState (cfg : RunConfig) (db0 : DB) : RunState :=
  let ls := load_existing_state db0
  { db := db0,
    ctx := { dryRun := cfg.dryRun, publicAlbums := cfg.publicAlbums,
             album_cache := ls.album_cache, slug_cache := ls.slug_cache,
             album_ids := ls.album_ids, created_albums := 0, nextId := 0 },
    existingKeys := ls.existing_keys,
    stats := { scanned := 0, skippedNonImage := 0, skippedExisting := 0,
               repairedExisting := 0, insertedFiles := 0, failedFiles := 0 } }

/-- The walk of `recover` (source lines 459-518) over the deterministic
file listing produced by `iter_files`; on a live run the final `db` is
the committed store, on a preview it is untouched. -/
def runRecover (cfg : RunConfig) (env : Env) (db0 : DB) (files : List FsFile) :
    RunState :=
  files.foldl (processFile cfg env (load_existing_state db0).existing_files)
    (initState cfg db0)

/-! ### Structural facts about the split / join / strip helpers -/

theorem splitOnChar_ne_nil (sep : Char) (l : List Char) : splitOnChar sep l ≠ [] := by
  cases l with
  | nil => simp [splitOnChar]
  | cons c rest =>
    simp only [splitOnChar]
    cases hsp : splitOnChar sep rest with
    | nil => simp
    | cons g gs => by_cases hc : c = sep <;> simp [hc]

theorem splitOnChar_cons_eq (sep c : Char) (rest g0 : List Char) (gs : List (List Char))
    (hsp : splitOnChar sep rest = g0 :: gs) :
    splitOnChar sep (c :: rest) =
      if c = sep then [] :: g0 :: gs else (c :: g0) :: gs := by
  simp only [splitOnChar, hsp]

theorem splitOnChar_not_mem (sep : Char) :
    ∀ (l g : List Char), g ∈ splitOnChar sep l → sep ∉ g := by
  intro l
  induction l with
  | nil =>
    intro g hg
    simp [splitOnChar] at hg
    simp [hg]
  | cons c rest ih =>
    intro g hg
    cases hsp : splitOnChar sep rest with
    | nil => exact absurd hsp (splitOnChar_ne_nil sep rest)
    | cons g0 gs =>
      rw [splitOnChar_cons_eq sep c rest g0 gs hsp] at hg
      by_cases hc : c = sep
      · rw [if_pos hc] at hg
        rcases List.mem_cons.mp hg with rfl | hg2
        · simp
        · exact ih g (hsp ▸ hg2)
      · rw [if_neg hc] at hg
        rcases List.mem_cons.mp hg with rfl | hg2
        · intro hmem
          rcases List.mem_cons.mp hmem with rfl | hmem'
          · exact hc rfl
          · exact ih g0 (hsp ▸ List.mem_cons_self g0 gs) hmem'
        · exact ih g (hsp ▸ List.mem_cons.mpr (Or.inr hg2))

theorem pathParts_mem (s : String) (g : List Char) (hg : g ∈ pathParts s) :
    g ≠ [] ∧ g ≠ ['.'] ∧ '/' ∉ g := by
  rcases List.mem_filter.mp hg with ⟨hmem, hcond⟩
  refine ⟨?_, ?_, splitOnChar_not_mem '/' s.data g hmem⟩
  · intro h; simp [h] at hcond
  · intro h; simp [h] at hcond

theorem dropWhile_eq_self_of_head (p : Char → Bool) (l : List Char)
    (h : ∀ c, l.head? = some c → p c = false) : l.dropWhile p = l := by
  cases l with
  | nil => rfl
  | cons c rest => simp [List.dropWhile_cons, h c rfl]

theorem stripCharL_eq_self (ch : Char) (l : List Char)
    (hhead : ∀ c, l.head? = some c → c ≠ ch)
    (hlast : ∀ c, l.getLast? = some c → c ≠ ch) : stripCharL ch l = l := by
  have h1 : l.dropWhile (fun x => decide (x = ch)) = l := by
    apply dropWhile_eq_self_of_head
    intro c hc
    simp [hhead c hc]
  have h2 : l.reverse.dropWhile (fun x => decide (x = ch)) = l.reverse := by
    apply dropWhile_eq_self_of_head
    intro c hc
    rw [List.head?_reverse] at hc
    simp [hlast c hc]
  show ((l.dropWhile (fun x => decide (x = ch))).reverse.dropWhile
    (fun x => decide (x = ch))).reverse = l
  rw [h1, h2, List.reverse_reverse]

theorem joinSlashL_head (g : List Char) (gs : List (List Char)) (hg : g ≠ []) :
    (joinSlashL (g :: gs)).head? = g.head? := by
  cases gs with
  | nil => rfl
  | cons g2 rest =>
    show (g ++ '/' :: joinSlashL (g2 :: rest)).head? = g.head?
    cases g with
    | nil => exact absurd rfl hg
    | cons c t => rfl

theorem joinSlashL_ne_nil (g : List Char) (gs : List (List Char)) (hg : g ≠ []) :
    joinSlashL (g :: gs) ≠ [] := by
  intro hnil
  have hh := joinSlashL_head g gs hg
  rw [hnil] at hh
  cases g with
  | nil => exact hg rfl
  | cons c t => simp at hh

theorem joinSlashL_getLast :
    ∀ (gs : List (List Char)) (g : List Char), g ≠ [] → (∀ h ∈ gs, h ≠ []) →
      (joinSlashL (g :: gs)).getLast? = ((g :: gs).getLastD []).getLast? := by
  intro gs
  induction gs with
  | nil => intro g _ _; rfl
  | cons g2 rest ih =>
    intro g hg hall
    have h2 : g2 ≠ [] := hall g2 (List.mem_cons_self g2 rest)
    have hrest : ∀ h ∈ rest, h ≠ [] := fun h hh => hall h (List.mem_cons.mpr (Or.inr hh))
    have hjoin : joinSlashL (g2 :: rest) ≠ [] := joinSlashL_ne_nil g2 rest h2
    show (g ++ '/' :: joinSlashL (g2 :: rest)).getLast? = _
    rw [show ('/' :: joinSlashL (g2 :: rest)) = ['/'] ++ joinSlashL (g2 :: rest) from rfl,
      ← List.append_assoc, List.getLast?_append_of_ne_nil _ hjoin, ih g2 h2 hrest]
    rfl

/-! ### C2: the container-path decision -/

/-- Spec-side reading of the opaque-key heuristic: at least three
`/`-separated segments, the first a 4-digit token, the second a 1-2-digit
token. -/
def shardedSpec (key : String) : Prop :=
  match splitOnChar '/' key.data with
  | p0 :: p1 :: _ :: _ =>
    (p0.length = 4 ∧ ∀ c ∈ p0, isDigitChar c) ∧
    ((p1.length = 1 ∨ p1.length = 2) ∧ ∀ c ∈ p1, isDigitChar c)
  | _ => False

/-- Spec-side reading of the attachment target: the parent directory's
components rendered as an absolute path. -/
def parentAbsSpec (key : String) : String :=
  ⟨'/' :: joinSlashL ((pathParts key).dropLast)⟩

/-- Spec-side reading of "the file sits at the tree root". -/
def atTreeRoot (key : String) : Prop := (pathParts key).dropLast = []

theorem looks_iff_shardedSpec (key : String) :
    looks_like_sharded_upload key = true ↔ shardedSpec key := by
  unfold looks_like_sharded_upload shardedSpec
  cases hsp : splitOnChar '/' key.data with
  | nil => simp
  | cons p0 t0 =>
    cases t0 with
    | nil => simp
    | cons p1 t1 =>
      cases t1 with
      | nil => simp
      | cons p2 rest =>
        simp only [fourDigits, oneTwoDigits, Bool.and_eq_true, Bool.or_eq_true,
          decide_eq_true_eq, List.all_eq_true]

theorem parentStr_of_rel (key : String) (hrel : headIs '/' key = false) :
    parentStr key =
      if (pathParts key).dropLast.isEmpty then "."
      else ⟨joinSlashL ((pathParts key).dropLast)⟩ := by
  unfold parentStr
  simp [hrel]

theorem joinSlash_parts_ne_dot (key : String)
    (hne : (pathParts key).dropLast ≠ []) :
    (⟨joinSlashL ((pathParts key).dropLast)⟩ : String) ≠ "." := by
  intro h
  have hdata : joinSlashL ((pathParts key).dropLast) = ['.'] := congrArg String.data h
  rcases hlist : (pathParts key).dropLast with _ | ⟨g, gs⟩
  · exact hne hlist
  · have hg := pathParts_mem key g
      (List.mem_of_mem_dropLast (hlist ▸ List.mem_cons_self g gs))
    rw [hlist] at hdata
    cases gs with
    | nil => exact hg.2.1 hdata
    | cons g2 rest =>
      have : (g ++ '/' :: joinSlashL (g2 :: rest)).length = 1 := by
        rw [show joinSlashL (g :: g2 :: rest) = g ++ '/' :: joinSlashL (g2 :: rest) from rfl]
          at hdata
        simp [hdata]
      rw [List.length_append, List.length_cons] at this
      have hglen : 1 ≤ g.length := by
        cases g with
        | nil => exact absurd rfl hg.1
        | cons c t => simp
      omega

theorem stripChar_joinSlash_parts (key : String) :
    stripChar '/' (⟨joinSlashL ((pathParts key).dropLast)⟩ : String) =
      ⟨joinSlashL ((pathParts key).dropLast)⟩ := by
  apply String.ext
  show stripCharL '/' (joinSlashL ((pathParts key).dropLast)) = _
  rcases hlist : (pathParts key).dropLast with _ | ⟨g, gs⟩
  · rfl
  · have hmem : ∀ h ∈ g :: gs, h ≠ [] ∧ '/' ∉ h := by
      intro h hh
      have := pathParts_mem key h (List.mem_of_mem_dropLast (hlist ▸ hh))
      exact ⟨this.1, this.2.2⟩
    have hg := hmem g (List.mem_cons_self g gs)
    apply stripCharL_eq_self
    · intro c hc
      rw [joinSlashL_head g gs hg.1] at hc
      intro hceq
      subst hceq
      exact hg.2 (List.mem_of_mem_head? hc)
    · intro c hc
      rw [joinSlashL_getLast gs g hg.1 (fun h hh => (hmem h (List.mem_cons.mpr (Or.inr hh))).1)]
        at hc
      have hcm : c ∈ (g :: gs).getLastD [] :=
        List.mem_of_mem_getLast? (Option.mem_def.mpr hc)
      rcases List.mem_cons.mp (List.getLastD_mem_cons (g :: gs) []) with hxd | hxd
      · rw [hxd] at hcm
        simp at hcm
      · intro hceq
        subst hceq
        exact (hmem _ hxd).2 hcm

/-- C2: container-path decision.  For every relative key: mode `none`
yields no container; mode `by-dir` yields the immediate parent directory
rendered as a normalized absolute path, or no container when the file
sits at the tree root; mode `auto` agrees with `by-dir` except that it
yields no container when the key looks like a sharded upload, and that
code predicate holds exactly when the key has at least three
`/`-separated segments whose first is a 4-digit token and whose second a
1-2-digit token; in particular `2024/03/x.jpg` under `auto` is
unattached while `vacation/beach.jpg` maps to `/vacation`. -/
theorem spec_c2_decide_album_path (key : String) (hrel : headIs '/' key = false) :
    decide_album_path key .nomode = none ∧
    decide_album_path key .byDir =
      (if (pathParts key).dropLast.isEmpty then none else some (parentAbsSpec key)) ∧
    (shardedSpec key → decide_album_path key .auto = none) ∧
    (¬ shardedSpec key → decide_album_path key .auto = decide_album_path key .byDir) ∧
    (looks_like_sharded_upload key = true ↔ shardedSpec key) ∧
    decide_album_path "2024/03/x.jpg" .auto = none ∧
    decide_album_path "vacation/beach.jpg" .auto = some "/vacation" := by
  have hparent := parentStr_of_rel key hrel
  refine ⟨?_, ?_, ?_, ?_, looks_iff_shardedSpec key, by decide, by decide⟩
  · by_cases hdot : parentStr key = "." <;> simp [decide_album_path, hdot]
  · by_cases hempty : (pathParts key).dropLast.isEmpty
    · have hdot : parentStr key = "." := by rw [hparent, if_pos hempty]
      simp [decide_album_path, hdot, hempty]
    · have hlist : (pathParts key).dropLast ≠ [] := by
        intro h; rw [h] at hempty; exact hempty rfl
      have hjoin : parentStr key = ⟨joinSlashL ((pathParts key).dropLast)⟩ := by
        rw [hparent, if_neg hempty]
      have hdot : parentStr key ≠ "." := by
        rw [hjoin]; exact joinSlash_parts_ne_dot key hlist
      simp only [decide_album_path, if_neg hdot, if_neg hempty]
      rw [hjoin, stripChar_joinSlash_parts key]
      exact congrArg some (String.ext (by rw [strData_append]; rfl))
  · intro hs
    have hl := (looks_iff_shardedSpec key).mpr hs
    by_cases hdot : parentStr key = "." <;> simp [decide_album_path, hdot, hl]
  · intro hs
    have hl : looks_like_sharded_upload key = false := by
      cases h : looks_like_sharded_upload key with
      | false => rfl
      | true => exact absurd ((looks_iff_shardedSpec key).mp h) hs
    by_cases hdot : parentStr key = "." <;> simp [decide_album_path, hdot, hl]

/-- Witness for C2 at the concrete keys named by the claim. -/
theorem spec_c2_decide_album_path_witness :
    decide_album_path "vacation/beach.jpg" .nomode = none ∧
    decide_album_path "vacation/beach.jpg" .byDir =
      (if (pathParts "vacation/beach.jpg").dropLast.isEmpty then none
       else some (parentAbsSpec "vacation/beach.jpg")) ∧
    (shardedSpec "vacation/beach.jpg" →
      decide_album_path "vacation/beach.jpg" .auto = none) ∧
    (¬ shardedSpec "vacation/beach.jpg" →
      decide_album_path "vacation/beach.jpg" .auto =
        decide_album_path "vacation/beach.jpg" .byDir) ∧
    (looks_like_sharded_upload "vacation/beach.jpg" = true ↔
      shardedSpec "vacation/beach.jpg") ∧
    decide_album_path "2024/03/x.jpg" .auto = none ∧
    decide_album_path "vacation/beach.jpg" .auto = some "/vacation" :=
  spec_c2_decide_album_path "vacation/beach.jpg" (by decide)

/-! ### C10: slug-probe termination -/

/-- The claim's probed-candidate sequence: probe `0` is the starting
candidate (the base slug, or its hash-disambiguated form), probe `i ≥ 1`
is `f"{base_slug}-{counter}"` with counter `i + 1`. -/
def slugCand (base cand0 : String) : Nat → String
  | 0 => cand0
  | i + 1 => base ++ "-" ++ Nat.repr (i + 2)

/-- C10 counterexample: the probed candidates are not always pairwise
distinct.  With base slug `album` already known in the run, the
hash-disambiguated first candidate appends the digest; for the album
path `/holiday/19` the first six sha1 hex digits are `464975`, all
decimal, so the first candidate `album-464975` recurs verbatim as the
numeric candidate probed at counter 464975. -/
theorem spec_c10_counterexample :
    slugCand "album" (firstCandidate ["album"] "album" "464975") 0 =
      slugCand "album" (firstCandidate ["album"] "album" "464975") 464974 ∧
    (0 : Nat) ≠ 464974 := by
  constructor
  · decide
  · decide

/-- C10 amended: for every base slug, finite in-memory slug set, and
finite persisted slug table, the probe loop terminates — fuel two more
than the combined size of the two sets always suffices — and returns a
slug free in both sets, registering it in the in-memory set before
returning.  (The probed candidates need not be pairwise distinct: the
hash-disambiguated candidate can spell one numeric candidate, so the
bound is two, not one, more than the number of occupied slugs.) -/
theorem spec_c10_slug_probe_terminates
    (persisted cache : List String) (base digest : String) :
    (slugLoop persisted cache base (firstCandidate cache base digest) 1
        (slugFuel persisted cache)).isSome = true ∧
    (ensure_unique_slug persisted cache base digest).1 ∉ persisted ∧
    (ensure_unique_slug persisted cache base digest).1 ∉ cache ∧
    (ensure_unique_slug persisted cache base digest).2 =
      (ensure_unique_slug persisted cache base digest).1 :: cache := by
  refine ⟨slugLoop_isSome persisted cache base _, ?_⟩
  exact ensure_unique_slug_spec persisted cache base digest

/-- Witness for C10's amended theorem at a concrete occupied state. -/
theorem spec_c10_slug_probe_terminates_witness :
    (slugLoop ["a", "a-2"] ["a"] "a" (firstCandidate ["a"] "a" "ff") 1
        (slugFuel ["a", "a-2"] ["a"])).isSome = true ∧
    (ensure_unique_slug ["a", "a-2"] ["a"] "a" "ff").1 ∉ ["a", "a-2"] ∧
    (ensure_unique_slug ["a", "a-2"] ["a"] "a" "ff").1 ∉ ["a"] ∧
    (ensure_unique_slug ["a", "a-2"] ["a"] "a" "ff").2 =
      (ensure_unique_slug ["a", "a-2"] ["a"] "a" "ff").1 :: ["a"] :=
  spec_c10_slug_probe_terminates ["a", "a-2"] ["a"] "a" "ff"

/-! ### C3: the container hierarchy builder is memoised -/

/-- The path accumulated by the chain walk after consuming its segment
list (mirrors the `current` accumulator of `ensure_album_chain`). -/
def extendPath (current : String) : List String → String
  | [] => current
  | seg :: rest => extendPath (chainCur current seg) rest

/-- Tail-form join: `joinTailL [g1, ..., gn] = "/g1/.../gn"` (as chars). -/
def joinTailL : List (List Char) → List Char
  | [] => []
  | g :: gs => '/' :: (g ++ joinTailL gs)

theorem joinSlashL_eq_tail : ∀ (g : List Char) (gs : List (List Char)),
    joinSlashL (g :: gs) = g ++ joinTailL gs := by
  intro g gs
  induction gs generalizing g with
  | nil => simp [joinSlashL, joinTailL]
  | cons g2 rest ih =>
    show g ++ '/' :: joinSlashL (g2 :: rest) = _
    rw [ih g2]
    simp [joinTailL]

theorem extendPath_data : ∀ (l : List String) (c : String), c ≠ "" →
    (extendPath c l).data = c.data ++ joinTailL (l.map String.data) := by
  intro l
  induction l with
  | nil => intro c _; simp [extendPath, joinTailL]
  | cons a rest ih =>
    intro c hc
    show (extendPath (chainCur c a) rest).data = _
    rw [show chainCur c a = c ++ "/" ++ a by rw [chainCur, if_neg hc]]
    have hne : c ++ "/" ++ a ≠ "" := by
      intro h
      have := congrArg String.data h
      rw [strData_append, strData_append] at this
      simp at this
    rw [ih _ hne, strData_append, strData_append]
    simp [joinTailL]

theorem joinSlashStr_data : ∀ (parts : List String),
    (joinSlashStr parts).data = joinSlashL (parts.map String.data) := by
  intro parts
  induction parts with
  | nil => rfl
  | cons a rest ih =>
    cases rest with
    | nil => rfl
    | cons b rest2 =>
      show (a ++ "/" ++ joinSlashStr (b :: rest2)).data = _
      rw [strData_append, strData_append, ih]
      show (a.data ++ "/".data) ++ joinSlashL _ = a.data ++ '/' :: joinSlashL _
      rw [List.append_assoc]
      rfl

/-- The accumulated path of the chain walk is exactly the normalised
album path the walk was launched for. -/
theorem extendPath_eq_normalized (albumPath : String) :
    extendPath ""
      (if (albumPathParts albumPath).isEmpty then [""] else albumPathParts albumPath) =
    normalizeAlbumPath albumPath := by
  apply String.ext
  rcases hp : albumPathParts albumPath with _ | ⟨a, rest⟩
  · simp only [hp, List.isEmpty_nil, if_pos]
    show (extendPath "" [""]).data = (normalizeAlbumPath albumPath).data
    unfold normalizeAlbumPath
    rw [hp, strData_append]
    rfl
  · simp only [hp, List.isEmpty_cons, if_neg]
    show (extendPath "" (a :: rest)).data = (normalizeAlbumPath albumPath).data
    unfold normalizeAlbumPath
    rw [hp, strData_append]
    show (extendPath (chainCur "" a) rest).data = _
    rw [show chainCur "" a = "/" ++ a from if_pos rfl]
    have hne : "/" ++ a ≠ "" := by
      intro h
      have := congrArg String.data h
      rw [strData_append] at this
      simp at this
    rw [extendPath_data rest _ hne, strData_append, joinSlashStr_data,
      List.map_cons, joinSlashL_eq_tail, List.append_assoc]

theorem lookupPath_cons_ne (cache : List (String × Nat)) (cur p : String) (aid : Nat)
    (hne : p ≠ cur) : lookupPath ((cur, aid) :: cache) p = lookupPath cache p := by
  unfold lookupPath lookupAssoc
  rw [List.find?_cons]
  have : (cur == p) = false := by
    simp only [beq_eq_false_iff_ne, ne_eq]
    exact fun h => hne h.symm
  simp [this]

theorem lookupPath_cons_self (cache : List (String × Nat)) (cur : String) (aid : Nat) :
    lookupPath ((cur, aid) :: cache) cur = some aid := by
  unfold lookupPath lookupAssoc
  rw [List.find?_cons]
  simp

theorem chainLoop_cons (env : Env) (seg : String) (rest : List String) (db : DB)
    (ctx : RecoveryContext) (parent : Option Nat) (current : String) :
    chainLoop env (seg :: rest) db ctx parent current =
      chainLoop env rest (chainStep env db ctx parent seg (chainCur current seg)).1
        (chainStep env db ctx parent seg (chainCur current seg)).2.1
        (some (chainStep env db ctx parent seg (chainCur current seg)).2.2)
        (chainCur current seg) := rfl

theorem chainStep_hit (env : Env) (db : DB) (ctx : RecoveryContext)
    (parent : Option Nat) (seg cur : String) (aid : Nat)
    (h : lookupPath ctx.album_cache cur = some aid) :
    chainStep env db ctx parent seg cur = (db, ctx, aid) := by
  simp [chainStep, h]

/-- On a cache miss, the step state after `chainStep`: the new cache
binding sits at the head, the other context fields advance as the
source writes them, and the store gains the synthesised container
unless previewing. -/
theorem chainStep_miss (env : Env) (db : DB) (ctx : RecoveryContext)
    (parent : Option Nat) (seg cur : String)
    (h : lookupPath ctx.album_cache cur = none) :
    chainStep env db ctx parent seg cur =
      (if ctx.dryRun then db else { db with albums := db.albums ++
          [mkAlbum ctx.nextId seg
            (ensure_unique_slug (albumSlugs db) ctx.slug_cache (slugify seg)
              (env.sha1hex6 cur)).1 parent ctx.publicAlbums cur env.now] },
       { ctx with
          album_cache := (cur, ctx.nextId) :: ctx.album_cache,
          slug_cache := (ensure_unique_slug (albumSlugs db) ctx.slug_cache (slugify seg)
            (env.sha1hex6 cur)).2,
          album_ids := ctx.nextId :: ctx.album_ids,
          created_albums := ctx.created_albums + 1,
          nextId := ctx.nextId + 1 },
       ctx.nextId) := by
  simp [chainStep, h]

theorem chainLoop_preserves_lookup (env : Env) :
    ∀ (segs : List String) (db : DB) (ctx : RecoveryContext) (parent : Option Nat)
      (current p : String) (a : Nat),
      lookupPath ctx.album_cache p = some a →
      lookupPath (chainLoop env segs db ctx parent current).2.album_cache p = some a := by
  intro segs
  induction segs with
  | nil => intro db ctx parent current p a h; exact h
  | cons seg rest ih =>
    intro db ctx parent current p a h
    rw [chainLoop_cons]
    cases hcur : lookupPath ctx.album_cache (chainCur current seg) with
    | some aid =>
      rw [chainStep_hit env db ctx parent seg _ aid hcur]
      exact ih _ _ _ _ _ _ h
    | none =>
      rw [chainStep_miss env db ctx parent seg _ hcur]
      apply ih
      by_cases hp : p = chainCur current seg
      · rw [hp] at h
        rw [h] at hcur
        cases hcur
      · rw [lookupPath_cons_ne _ _ _ _ hp]
        exact h

theorem chainLoop_final_lookup (env : Env) :
    ∀ (segs : List String) (db : DB) (ctx : RecoveryContext) (parent : Option Nat)
      (current : String), segs ≠ [] →
      ∃ aid, lookupPath (chainLoop env segs db ctx parent current).2.album_cache
        (extendPath current segs) = some aid := by
  intro segs
  induction segs with
  | nil => intro _ _ _ _ h; exact absurd rfl h
  | cons seg rest ih =>
    intro db ctx parent current _
    rw [chainLoop_cons, show extendPath current (seg :: rest) =
      extendPath (chainCur current seg) rest from rfl]
    cases hrest : rest with
    | nil =>
      cases hcur : lookupPath ctx.album_cache (chainCur current seg) with
      | some aid =>
        refine ⟨aid, ?_⟩
        rw [chainStep_hit env db ctx parent seg _ aid hcur]
        exact hcur
      | none =>
        refine ⟨ctx.nextId, ?_⟩
        rw [chainStep_miss env db ctx parent seg _ hcur]
        exact lookupPath_cons_self _ _ _
    | cons r2 rs =>
      exact hrest ▸ ih _ _ _ _ (by simp [hrest])

theorem ensure_album_chain_root (env : Env) (db : DB) (ctx : RecoveryContext)
    (p : String) (h : p = "" ∨ p = "/") :
    ensure_album_chain env db ctx p = (db, ctx, none) := by
  unfold ensure_album_chain
  rw [if_pos h]

theorem ensure_album_chain_hit (env : Env) (db : DB) (ctx : RecoveryContext)
    (p : String) (aid : Nat) (hroot : ¬(p = "" ∨ p = "/"))
    (h : lookupPath ctx.album_cache (normalizeAlbumPath p) = some aid) :
    ensure_album_chain env db ctx p = (db, ctx, some aid) := by
  simp only [ensure_album_chain, if_neg hroot]
  rw [h]

theorem ensure_album_chain_miss (env : Env) (db : DB) (ctx : RecoveryContext)
    (p : String) (hroot : ¬(p = "" ∨ p = "/"))
    (h : lookupPath ctx.album_cache (normalizeAlbumPath p) = none) :
    ensure_album_chain env db ctx p =
      ((chainLoop env (if (albumPathParts p).isEmpty then [""] else albumPathParts p)
          db ctx none "").1,
       (chainLoop env (if (albumPathParts p).isEmpty then [""] else albumPathParts p)
          db ctx none "").2,
       lookupPath (chainLoop env
          (if (albumPathParts p).isEmpty then [""] else albumPathParts p)
          db ctx none "").2.album_cache (normalizeAlbumPath p)) := by
  simp only [ensure_album_chain, if_neg hroot]
  rw [h]

/-- The segment list walked by `ensure_album_chain` is never empty. -/
theorem chainSegs_ne_nil (p : String) :
    (if (albumPathParts p).isEmpty then [""] else albumPathParts p) ≠ [] := by
  by_cases h : (albumPathParts p).isEmpty
  · simp [h]
  · simp only [if_neg h]
    intro hnil
    rw [hnil] at h
    exact h rfl

/-- After any non-root call, the chain's answer is a concrete container
id that the final path cache maps the normalised path to. -/
theorem ensure_album_chain_post (env : Env) (db : DB) (ctx : RecoveryContext)
    (p : String) (hroot : ¬(p = "" ∨ p = "/")) :
    ∃ aid, (ensure_album_chain env db ctx p).2.2 = some aid ∧
      lookupPath (ensure_album_chain env db ctx p).2.1.album_cache
        (normalizeAlbumPath p) = some aid := by
  cases hl : lookupPath ctx.album_cache (normalizeAlbumPath p) with
  | some aid =>
    rw [ensure_album_chain_hit env db ctx p aid hroot hl]
    exact ⟨aid, rfl, hl⟩
  | none =>
    obtain ⟨aid, haid⟩ := chainLoop_final_lookup env
      (if (albumPathParts p).isEmpty then [""] else albumPathParts p)
      db ctx none "" (chainSegs_ne_nil p)
    rw [extendPath_eq_normalized p] at haid
    rw [ensure_album_chain_miss env db ctx p hroot hl]
    exact ⟨aid, haid, haid⟩

/-- C3: within a run the hierarchy builder is memoised.  An empty or
root path always yields no container and no state change; a non-root
call returns a concrete container id; repeating that call on the
resulting state returns the same id with no further change of store or
context (so the side effects — synthesis, persistence, created-count —
happen at most once per distinct path); and any path already resolved by
the cache (for instance a member of an already built chain) is answered
from the cache with no state change at all. -/
theorem spec_c3_ensure_album_chain (env : Env) (db db' : DB)
    (ctx ctx' : RecoveryContext) (p : String) (r : Option Nat)
    (hroot : ¬(p = "" ∨ p = "/"))
    (h : ensure_album_chain env db ctx p = (db', ctx', r)) :
    (∀ q, (q = "" ∨ q = "/") → ensure_album_chain env db ctx q = (db, ctx, none)) ∧
    (∃ aid, r = some aid) ∧
    ensure_album_chain env db' ctx' p = (db', ctx', r) ∧
    (∀ q aid, ¬(q = "" ∨ q = "/") →
      lookupPath ctx.album_cache (normalizeAlbumPath q) = some aid →
      ensure_album_chain env db ctx q = (db, ctx, some aid)) := by
  obtain ⟨aid, hr, hlook⟩ := ensure_album_chain_post env db ctx p hroot
  rw [h] at hr hlook
  have hr' : r = some aid := hr
  have hlook' : lookupPath ctx'.album_cache (normalizeAlbumPath p) = some aid := hlook
  refine ⟨fun q hq => ensure_album_chain_root env db ctx q hq, ⟨aid, hr'⟩, ?_,
    fun q aid2 hq hl => ensure_album_chain_hit env db ctx q aid2 hq hl⟩
  rw [hr']
  exact ensure_album_chain_hit env db' ctx' p aid hroot hlook'

/-- Environment and context used by concrete witnesses. -/
def wEnv : Env :=
  { guessType := fun _ => none, sha1hex6 := fun _ => "abcdef", now := "T" }

def wCtx : RecoveryContext :=
  { dryRun := false, publicAlbums := false, album_cache := [], slug_cache := [],
    album_ids := [], created_albums := 0, nextId := 0 }

/-- Witness for C3 on the concrete path `/a/b` over an empty store. -/
theorem spec_c3_ensure_album_chain_witness :
    (∀ q, (q = "" ∨ q = "/") →
      ensure_album_chain wEnv ⟨[], []⟩ wCtx q = (⟨[], []⟩, wCtx, none)) ∧
    (∃ aid, (ensure_album_chain wEnv ⟨[], []⟩ wCtx "/a/b").2.2 = some aid) ∧
    ensure_album_chain wEnv (ensure_album_chain wEnv ⟨[], []⟩ wCtx "/a/b").1
      (ensure_album_chain wEnv ⟨[], []⟩ wCtx "/a/b").2.1 "/a/b" =
      ((ensure_album_chain wEnv ⟨[], []⟩ wCtx "/a/b").1,
       (ensure_album_chain wEnv ⟨[], []⟩ wCtx "/a/b").2.1,
       (ensure_album_chain wEnv ⟨[], []⟩ wCtx "/a/b").2.2) ∧
    (∀ q aid, ¬(q = "" ∨ q = "/") →
      lookupPath wCtx.album_cache (normalizeAlbumPath q) = some aid →
      ensure_album_chain wEnv ⟨[], []⟩ wCtx q = (⟨[], []⟩, wCtx, some aid)) :=
  spec_c3_ensure_album_chain wEnv ⟨[], []⟩ _ wCtx _ "/a/b" _ (by decide) rfl

/-! ### C5, C6, C7: per-file repair properties -/

theorem repair_cases (env : Env) (ctx : RecoveryContext) (db : DB)
    (existing : ExistingFileRow) (f : FsFile) (t0 : Option Nat) :
    repair_existing_file env ctx db existing f t0 =
      if repairNeedsUpdate env ctx existing f (repairTarget existing t0) then
        (if ctx.dryRun then (true, db)
         else (true, repairUpdatedDB env existing f (repairTarget existing t0) db))
      else (false, db) := by
  by_cases hn : repairNeedsUpdate env ctx existing f (repairTarget existing t0) <;>
    by_cases hd : ctx.dryRun <;>
    simp [repair_existing_file, hn, hd]

/-- C5: when the decided container is unattached (`None`), a repair
never clears the stored assignment — if no update is needed the table is
untouched, and if an update is written the row keeps the item's existing
container id. -/
theorem spec_c5_unattached_keeps_album (env : Env) (ctx : RecoveryContext)
    (db : DB) (existing : ExistingFileRow) (f : FsFile)
    (hlive : ctx.dryRun = false) :
    ((repair_existing_file env ctx db existing f none).1 = false →
      (repair_existing_file env ctx db existing f none).2 = db) ∧
    ((repair_existing_file env ctx db existing f none).1 = true →
      ∀ r' ∈ (repair_existing_file env ctx db existing f none).2.files,
        r'.id = existing.id → r'.albumId = existing.albumId) := by
  rw [repair_cases]
  by_cases hn : repairNeedsUpdate env ctx existing f (repairTarget existing none)
  · rw [if_pos hn, hlive]
    simp only [if_false, Bool.false_eq_true]
    constructor
    · intro h; cases h
    · intro _ r' hr' hid
      rcases List.mem_map.mp hr' with ⟨r, _, rfl⟩
      unfold repairApply at hid ⊢
      by_cases hidr : r.id = existing.id
      · simp only [if_pos hidr]
        rfl
      · rw [if_neg hidr] at hid
        exact absurd hid hidr
  · rw [if_neg hn]
    exact ⟨fun _ => rfl, fun h => by cases h⟩

/-- Concrete repair scenario for C6: an item whose stored container id 7
is absent from the known-id set, with the decided container unattached;
everything else about the row matches the file on disk. -/
def cexCtx : RecoveryContext :=
  { dryRun := false, publicAlbums := false, album_cache := [], slug_cache := [],
    album_ids := [], created_albums := 0, nextId := 0 }

def cexExisting : ExistingFileRow :=
  { id := 1, albumId := some 7, originalName := "a.jpg", size := 5,
    mimeType := "image/jpeg" }

def cexRow : FileRow :=
  { id := 1, key := "a.jpg", originalName := "a.jpg", size := 5,
    mimeType := "image/jpeg", width := none, height := none, thumbhash := none,
    tags := "[]", caption := none, semanticDescription := none, aliases := "[]",
    annotationUpdatedAt := none, exifData := none, albumId := some 7,
    createdAt := "T0", updatedAt := "T0" }

def cexDB : DB := { albums := [], files := [cexRow] }

def cexFile : FsFile := { key := "a.jpg", size := 5 }

/-- C6 counterexample: for this dangling item the repair pass does run
(an update occurs), but with no decided container the written container
id is the item's old dangling id 7 — the reference is not cleared, so
the claim's "detached (container id cleared) when no container is
decided" fails on the code. -/
theorem spec_c6_counterexample :
    (repair_existing_file wEnv cexCtx cexDB cexExisting cexFile none).1 = true ∧
    ((repair_existing_file wEnv cexCtx cexDB cexExisting cexFile none).2.files.map
      (·.albumId)) = [some 7] := by
  constructor
  · decide
  · decide

/-- C6 amended: an item whose stored container id is absent from the
known-id set is always repaired (an update occurs); the update reassigns
it to the freshly decided container when one is decided, but when the
decision is unattached the update rewrites the existing (still dangling)
container id rather than clearing it. -/
theorem spec_c6_dangling_repair (env : Env) (ctx : RecoveryContext) (db : DB)
    (existing : ExistingFileRow) (f : FsFile) (target : Option Nat) (a : Nat)
    (hlive : ctx.dryRun = false)
    (hdangle : existing.albumId = some a) (hmiss : a ∉ ctx.album_ids) :
    (repair_existing_file env ctx db existing f target).1 = true ∧
    (∀ r' ∈ (repair_existing_file env ctx db existing f target).2.files,
      r'.id = existing.id →
        r'.albumId = (match target with
          | some t => some t
          | none => existing.albumId)) := by
  have hn : repairNeedsUpdate env ctx existing f (repairTarget existing target) = true := by
    unfold repairNeedsUpdate repairValid
    rw [hdangle]
    have hc : (ctx.album_ids.contains a) = false := by
      cases hcc : ctx.album_ids.contains a with
      | false => rfl
      | true => exact absurd (List.elem_iff.mp hcc) hmiss
    simp [hc]
    exact Or.inr hmiss
  rw [repair_cases, if_pos hn, hlive]
  simp only [if_false, Bool.false_eq_true]
  refine ⟨by simp, ?_⟩
  intro r' hr' hid
  rcases List.mem_map.mp hr' with ⟨r, _, rfl⟩
  unfold repairApply at hid ⊢
  by_cases hidr : r.id = existing.id
  · simp only [if_pos hidr]
    cases target <;> rfl
  · rw [if_neg hidr] at hid
    exact absurd hid hidr

/-- Witness for C5 on the concrete dangling scenario. -/
theorem spec_c5_unattached_keeps_album_witness :
    ((repair_existing_file wEnv cexCtx cexDB cexExisting cexFile none).1 = false →
      (repair_existing_file wEnv cexCtx cexDB cexExisting cexFile none).2 = cexDB) ∧
    ((repair_existing_file wEnv cexCtx cexDB cexExisting cexFile none).1 = true →
      ∀ r' ∈ (repair_existing_file wEnv cexCtx cexDB cexExisting cexFile none).2.files,
        r'.id = cexExisting.id → r'.albumId = cexExisting.albumId) :=
  spec_c5_unattached_keeps_album wEnv cexCtx cexDB cexExisting cexFile rfl

/-- Witness for C6's amended theorem on the concrete dangling scenario,
with a decided container 3. -/
theorem spec_c6_dangling_repair_witness :
    (repair_existing_file wEnv cexCtx cexDB cexExisting cexFile (some 3)).1 = true ∧
    (∀ r' ∈ (repair_existing_file wEnv cexCtx cexDB cexExisting cexFile
        (some 3)).2.files,
      r'.id = cexExisting.id →
        r'.albumId = (match (some 3 : Option Nat) with
          | some t => some t
          | none => cexExisting.albumId)) :=
  spec_c6_dangling_repair wEnv cexCtx cexDB cexExisting cexFile (some 3) 7 rfl rfl
    (by decide)

/-- The fields repair may never touch: everything except container id,
display name, size, MIME type and the update timestamp. -/
def frameEq (r r' : FileRow) : Prop :=
  r'.id = r.id ∧ r'.key = r.key ∧ r'.width = r.width ∧ r'.height = r.height ∧
  r'.thumbhash = r.thumbhash ∧ r'.tags = r.tags ∧ r'.caption = r.caption ∧
  r'.semanticDescription = r.semanticDescription ∧ r'.aliases = r.aliases ∧
  r'.annotationUpdatedAt = r.annotationUpdatedAt ∧ r'.exifData = r.exifData ∧
  r'.createdAt = r.createdAt

/-- C7: every repair outcome relates old and new tables row by row: the
pass-through fields (tags, caption, semantic description, aliases,
annotation timestamp, embedded metadata, plus key, id, dimensions,
thumbhash and creation timestamp) are never touched, and rows other than
the repaired item's are not modified at all. -/
theorem spec_c7_repair_frame (env : Env) (ctx : RecoveryContext) (db : DB)
    (existing : ExistingFileRow) (f : FsFile) (target : Option Nat) :
    List.Forall₂ (fun r r' => frameEq r r' ∧ (r.id ≠ existing.id → r' = r))
      db.files (repair_existing_file env ctx db existing f target).2.files := by
  have hself : ∀ l : List FileRow,
      List.Forall₂ (fun r r' => frameEq r r' ∧ (r.id ≠ existing.id → r' = r)) l l := by
    intro l
    induction l with
    | nil => exact List.Forall₂.nil
    | cons r rest ih =>
      exact List.Forall₂.cons ⟨⟨rfl, rfl, rfl, rfl, rfl, rfl, rfl, rfl, rfl, rfl,
        rfl, rfl⟩, fun _ => rfl⟩ ih
  rw [repair_cases]
  by_cases hn : repairNeedsUpdate env ctx existing f (repairTarget existing target)
  · rw [if_pos hn]
    by_cases hd : ctx.dryRun
    · rw [if_pos hd]
      exact hself db.files
    · rw [if_neg hd]
      show List.Forall₂ _ db.files (db.files.map _)
      induction db.files with
      | nil => exact List.Forall₂.nil
      | cons r rest ih =>
        refine List.Forall₂.cons ?_ ih
        unfold repairApply
        by_cases hidr : r.id = existing.id
        · rw [if_pos hidr]
          exact ⟨⟨rfl, rfl, rfl, rfl, rfl, rfl, rfl, rfl, rfl, rfl, rfl, rfl⟩,
            fun hne => absurd hidr hne⟩
        · rw [if_neg hidr]
          exact ⟨⟨rfl, rfl, rfl, rfl, rfl, rfl, rfl, rfl, rfl, rfl, rfl, rfl⟩,
            fun _ => rfl⟩
  · rw [if_neg hn]
    exact hself db.files

/-- Concrete row for the C7 witness: non-empty tags and caption, with a
size mismatch against the file on disk. -/
def c7Row : FileRow :=
  { id := 1, key := "a.jpg", originalName := "a.jpg", size := 5,
    mimeType := "image/jpeg", width := none, height := none, thumbhash := none,
    tags := "[\"vacation\"]", caption := some "on the beach",
    semanticDescription := none, aliases := "[]",
    annotationUpdatedAt := none, exifData := none, albumId := none,
    createdAt := "T0", updatedAt := "T0" }

def c7Existing : ExistingFileRow :=
  { id := 1, albumId := none, originalName := "a.jpg", size := 5,
    mimeType := "image/jpeg" }

def c7DB : DB := { albums := [], files := [c7Row] }

/-- A size mismatch (7 on disk versus 5 stored) triggers a repair. -/
def c7File : FsFile := { key := "a.jpg", size := 7 }

/-- Witness for C7: the row-by-row frame relation at the concrete
size-mismatch scenario (and, checked directly, the update fires, the
size is rewritten, and the non-empty tags and caption survive). -/
theorem spec_c7_repair_frame_witness :
    List.Forall₂ (fun r r' => frameEq r r' ∧ (r.id ≠ c7Existing.id → r' = r))
      c7DB.files (repair_existing_file wEnv cexCtx c7DB c7Existing c7File none).2.files ∧
    (repair_existing_file wEnv cexCtx c7DB c7Existing c7File none).1 = true ∧
    ((repair_existing_file wEnv cexCtx c7DB c7Existing c7File none).2.files.map
      (fun r => (r.size, r.tags, r.caption))) =
      [(7, "[\"vacation\"]", some "on the beach")] :=
  ⟨spec_c7_repair_frame wEnv cexCtx c7DB c7Existing c7File none,
   by decide, by decide⟩

/-! ### C9: the scan-subdirectory pre-flight check -/

/-- POSIX resolution of `(uploads_dir / args.subdir).resolve()` over a
symlink-free tree, with the uploads root already resolved to the
absolute segment list `base`: walk the subdirectory's segments, ignoring
empty and `.` segments, popping one segment per `..` (staying at the
filesystem root when empty). -/
def resolveSegs (base : List String) (sub : String) : List String :=
  (splitOnChar '/' sub.data).foldl (fun acc seg =>
    if seg = [] ∨ seg = ['.'] then acc
    else if seg = ['.', '.'] then acc.dropLast
    else acc ++ [(⟨seg⟩ : String)]) base

/-- `str(path)` for an absolute path given by its segments. -/
def pathStr (segs : List String) : String :=
  if segs.isEmpty then "/" else ⟨joinTailL (segs.map String.data)⟩

/-- The containment check of `recover` (source line 418):
`str(scan_root).startswith(str(uploads_dir))`. -/
def subdirCheck (base : List String) (sub : String) : Bool :=
  leadsWith (pathStr base) (pathStr (resolveSegs base sub))

/-- The pre-flight stage for a configured subdirectory (source lines
416-420): `some 2` aborts the run with exit status 2 before the store is
opened; `none` lets the run continue. -/
def preflightSubdir (base : List String) (sub : String) : Option Nat :=
  if sub ≠ "" ∧ subdirCheck base sub = false then some 2 else none

/-- Spec-side containment: the resolved scan root lies inside the
storage root, i.e. its segment list extends the root's. -/
def insideRoot (base : List String) (sub : String) : Prop :=
  ∃ extra, resolveSegs base sub = base ++ extra

theorem leadsWithL_append (l m : List Char) : leadsWithL l (l ++ m) = true := by
  induction l with
  | nil => rfl
  | cons c rest ih => simp [leadsWithL, ih]

theorem joinTailL_append (a b : List (List Char)) :
    joinTailL (a ++ b) = joinTailL a ++ joinTailL b := by
  induction a with
  | nil => rfl
  | cons g gs ih => simp [joinTailL, ih]

/-- A subdirectory that truly resolves inside the storage root always
passes the string check. -/
theorem insideRoot_check_passes (base : List String) (sub : String)
    (h : insideRoot base sub) : subdirCheck base sub = true := by
  obtain ⟨extra, hres⟩ := h
  unfold subdirCheck
  rw [hres]
  cases hbase : base with
  | nil =>
    unfold pathStr leadsWith
    cases hex : extra with
    | nil => decide
    | cons e es =>
      simp only [List.nil_append, List.isEmpty_nil, if_pos, List.isEmpty_cons, if_neg]
      show leadsWithL "/".data (joinTailL ((e :: es).map String.data)) = true
      simp [joinTailL, leadsWithL]
  | cons b bs =>
    unfold pathStr leadsWith
    simp only [List.isEmpty_cons, List.append_eq, List.cons_append, if_neg]
    show leadsWithL (joinTailL ((b :: bs).map String.data))
      (joinTailL (((b :: bs) ++ extra).map String.data)) = true
    rw [List.map_append, joinTailL_append]
    exact leadsWithL_append _ _

/-- C9: the scan-subdirectory containment claim against the code.  The
pre-flight check is a plain string comparison, so the sibling directory
`/data/uploads2`, reached from the storage root `/data/uploads` via the
subdirectory `../uploads2`, resolves outside the root yet passes the
check, and the run proceeds instead of aborting with exit status 2; by
contrast a genuinely inside subdirectory passes the check (as the claim
says), and an escape whose resolved path is not a string extension of
the root is caught. -/
theorem spec_c9_subdir_containment :
    (∀ base sub, insideRoot base sub → subdirCheck base sub = true) ∧
    resolveSegs ["data", "uploads"] "../uploads2" = ["data", "uploads2"] ∧
    ¬ insideRoot ["data", "uploads"] "../uploads2" ∧
    subdirCheck ["data", "uploads"] "../uploads2" = true ∧
    preflightSubdir ["data", "uploads"] "../uploads2" = none ∧
    (¬ insideRoot ["data", "uploads"] "../elsewhere" ∧
      preflightSubdir ["data", "uploads"] "../elsewhere" = some 2) := by
  refine ⟨insideRoot_check_passes, by decide, ?_, by decide, by decide, ?_, by decide⟩
  · intro ⟨extra, h⟩
    rw [show resolveSegs ["data", "uploads"] "../uploads2" = ["data", "uploads2"]
      from by decide] at h
    simp at h
  · intro ⟨extra, h⟩
    rw [show resolveSegs ["data", "uploads"] "../elsewhere" = ["data", "elsewhere"]
      from by decide] at h
    simp at h

/-- Witness for C9's universally quantified conjunct at a concrete
inside subdirectory. -/
theorem spec_c9_subdir_containment_witness :
    insideRoot ["data", "uploads"] "pics/2024" ∧
    subdirCheck ["data", "uploads"] "pics/2024" = true := by
  have hin : insideRoot ["data", "uploads"] "pics/2024" :=
    ⟨["pics", "2024"], by decide⟩
  exact ⟨hin, (spec_c9_subdir_containment).1 ["data", "uploads"] "pics/2024" hin⟩

/-! ### Chain-walk preservation lemmas (shared by C1, C4, C8) -/

theorem chainCur_ne_empty (current seg : String) : chainCur current seg ≠ "" := by
  unfold chainCur
  by_cases h : current = ""
  · rw [if_pos h]
    intro he
    have hd := congrArg String.data he
    rw [strData_append] at hd
    simp at hd
  · rw [if_neg h]
    intro he
    have hd := congrArg String.data he
    rw [strData_append, strData_append] at hd
    simp at hd

theorem lookupPath_isSome_cons (cache : List (String × Nat)) (cur p : String)
    (aid : Nat) (h : (lookupPath cache p).isSome) :
    (lookupPath ((cur, aid) :: cache) p).isSome := by
  by_cases hp : p = cur
  · subst hp
    rw [lookupPath_cons_self]
    rfl
  · rw [lookupPath_cons_ne _ _ _ _ hp]
    exact h

theorem chainStep_files (env : Env) (db : DB) (ctx : RecoveryContext)
    (parent : Option Nat) (seg cur : String) :
    (chainStep env db ctx parent seg cur).1.files = db.files := by
  cases hcur : lookupPath ctx.album_cache cur with
  | some aid => rw [chainStep_hit env db ctx parent seg cur aid hcur]
  | none =>
    rw [chainStep_miss env db ctx parent seg cur hcur]
    by_cases hd : ctx.dryRun <;> simp [hd]

theorem chainStep_albums_extend (env : Env) (db : DB) (ctx : RecoveryContext)
    (parent : Option Nat) (seg cur : String) :
    ∃ dl, (chainStep env db ctx parent seg cur).1.albums = db.albums ++ dl := by
  cases hcur : lookupPath ctx.album_cache cur with
  | some aid =>
    rw [chainStep_hit env db ctx parent seg cur aid hcur]
    exact ⟨[], by simp⟩
  | none =>
    rw [chainStep_miss env db ctx parent seg cur hcur]
    by_cases hd : ctx.dryRun
    · exact ⟨[], by simp [hd]⟩
    · exact ⟨[mkAlbum ctx.nextId seg
        (ensure_unique_slug (albumSlugs db) ctx.slug_cache (slugify seg)
          (env.sha1hex6 cur)).1 parent ctx.publicAlbums cur env.now],
        by simp [hd]⟩

theorem chainStep_cache_mono (env : Env) (db : DB) (ctx : RecoveryContext)
    (parent : Option Nat) (seg cur : String) (e : String × Nat)
    (he : e ∈ ctx.album_cache) :
    e ∈ (chainStep env db ctx parent seg cur).2.1.album_cache := by
  cases hcur : lookupPath ctx.album_cache cur with
  | some aid =>
    rw [chainStep_hit env db ctx parent seg cur aid hcur]
    exact he
  | none =>
    rw [chainStep_miss env db ctx parent seg cur hcur]
    exact List.mem_cons.mpr (Or.inr he)

theorem chainStep_lookup_preserve (env : Env) (db : DB) (ctx : RecoveryContext)
    (parent : Option Nat) (seg cur p : String) (a : Nat)
    (h : lookupPath ctx.album_cache p = some a) :
    lookupPath (chainStep env db ctx parent seg cur).2.1.album_cache p = some a := by
  cases hcur : lookupPath ctx.album_cache cur with
  | some aid =>
    rw [chainStep_hit env db ctx parent seg cur aid hcur]
    exact h
  | none =>
    rw [chainStep_miss env db ctx parent seg cur hcur]
    by_cases hp : p = cur
    · rw [hp] at h
      rw [h] at hcur
      cases hcur
    · rw [lookupPath_cons_ne _ _ _ _ hp]
      exact h

theorem chainStep_dryRun (env : Env) (db : DB) (ctx : RecoveryContext)
    (parent : Option Nat) (seg cur : String) :
    (chainStep env db ctx parent seg cur).2.1.dryRun = ctx.dryRun := by
  cases hcur : lookupPath ctx.album_cache cur with
  | some aid => rw [chainStep_hit env db ctx parent seg cur aid hcur]
  | none => rw [chainStep_miss env db ctx parent seg cur hcur]

theorem chainStep_AB (env : Env) (db : DB) (ctx : RecoveryContext)
    (parent : Option Nat) (seg cur : String)
    (hlive : ctx.dryRun = false)
    (hA : ∀ e ∈ ctx.album_cache, e.1 ∈ albumPaths db)
    (hB : ∀ a ∈ db.albums, a.path ≠ "" → (lookupPath ctx.album_cache a.path).isSome) :
    (∀ e ∈ (chainStep env db ctx parent seg cur).2.1.album_cache,
      e.1 ∈ albumPaths (chainStep env db ctx parent seg cur).1) ∧
    (∀ a ∈ (chainStep env db ctx parent seg cur).1.albums, a.path ≠ "" →
      (lookupPath (chainStep env db ctx parent seg cur).2.1.album_cache
        a.path).isSome) := by
  cases hcur : lookupPath ctx.album_cache cur with
  | some aid =>
    rw [chainStep_hit env db ctx parent seg cur aid hcur]
    exact ⟨hA, hB⟩
  | none =>
    rw [chainStep_miss env db ctx parent seg cur hcur]
    rw [if_neg (by rw [hlive]; exact Bool.false_ne_true)]
    constructor
    · intro e he
      rcases List.mem_cons.mp he with rfl | he2
      · show cur ∈ albumPaths _
        unfold albumPaths
        simp [mkAlbum]
      · unfold albumPaths
        rw [List.map_append]
        exact List.mem_append.mpr (Or.inl (hA e he2))
    · intro a ha hne
      rcases List.mem_append.mp ha with ha2 | ha2
      · exact lookupPath_isSome_cons _ _ _ _ (hB a ha2 hne)
      · have ha3 : a = mkAlbum ctx.nextId seg
            (ensure_unique_slug (albumSlugs db) ctx.slug_cache (slugify seg)
              (env.sha1hex6 cur)).1 parent ctx.publicAlbums cur env.now := by
          simpa using ha2
        rw [ha3]
        show (lookupPath ((cur, ctx.nextId) :: ctx.album_cache) cur).isSome
        rw [lookupPath_cons_self]
        rfl

theorem chainLoop_files_eq (env : Env) : ∀ (segs : List String) (db : DB)
    (ctx : RecoveryContext) (parent : Option Nat) (current : String),
    (chainLoop env segs db ctx parent current).1.files = db.files := by
  intro segs
  induction segs with
  | nil => intro db ctx parent current; rfl
  | cons seg rest ih =>
    intro db ctx parent current
    rw [chainLoop_cons, ih]
    exact chainStep_files env db ctx parent seg (chainCur current seg)

theorem chainLoop_albums_extend (env : Env) : ∀ (segs : List String) (db : DB)
    (ctx : RecoveryContext) (parent : Option Nat) (current : String),
    ∃ dl, (chainLoop env segs db ctx parent current).1.albums = db.albums ++ dl := by
  intro segs
  induction segs with
  | nil => intro db ctx parent current; exact ⟨[], by simp [chainLoop]⟩
  | cons seg rest ih =>
    intro db ctx parent current
    rw [chainLoop_cons]
    obtain ⟨dl1, h1⟩ := chainStep_albums_extend env db ctx parent seg (chainCur current seg)
    obtain ⟨dl2, h2⟩ := ih (chainStep env db ctx parent seg (chainCur current seg)).1
      (chainStep env db ctx parent seg (chainCur current seg)).2.1
      (some (chainStep env db ctx parent seg (chainCur current seg)).2.2)
      (chainCur current seg)
    exact ⟨dl1 ++ dl2, by rw [h2, h1, List.append_assoc]⟩

theorem chainLoop_cache_mono (env : Env) : ∀ (segs : List String) (db : DB)
    (ctx : RecoveryContext) (parent : Option Nat) (current : String)
    (e : String × Nat), e ∈ ctx.album_cache →
    e ∈ (chainLoop env segs db ctx parent current).2.album_cache := by
  intro segs
  induction segs with
  | nil => intro db ctx parent current e he; exact he
  | cons seg rest ih =>
    intro db ctx parent current e he
    rw [chainLoop_cons]
    exact ih _ _ _ _ _ (chainStep_cache_mono env db ctx parent seg _ e he)

theorem chainLoop_dryRun (env : Env) : ∀ (segs : List String) (db : DB)
    (ctx : RecoveryContext) (parent : Option Nat) (current : String),
    (chainLoop env segs db ctx parent current).2.dryRun = ctx.dryRun := by
  intro segs
  induction segs with
  | nil => intro db ctx parent current; rfl
  | cons seg rest ih =>
    intro db ctx parent current
    rw [chainLoop_cons, ih]
    exact chainStep_dryRun env db ctx parent seg (chainCur current seg)

/-- Live-mode chain invariant: every cache binding names a path present
in the store's album table, and every non-empty album path is resolvable
through the cache. -/
theorem chainLoop_AB (env : Env) : ∀ (segs : List String) (db : DB)
    (ctx : RecoveryContext) (parent : Option Nat) (current : String),
    ctx.dryRun = false →
    (∀ e ∈ ctx.album_cache, e.1 ∈ albumPaths db) →
    (∀ a ∈ db.albums, a.path ≠ "" → (lookupPath ctx.album_cache a.path).isSome) →
    (∀ e ∈ (chainLoop env segs db ctx parent current).2.album_cache,
      e.1 ∈ albumPaths (chainLoop env segs db ctx parent current).1) ∧
    (∀ a ∈ (chainLoop env segs db ctx parent current).1.albums, a.path ≠ "" →
      (lookupPath (chainLoop env segs db ctx parent current).2.album_cache
        a.path).isSome) := by
  intro segs
  induction segs with
  | nil => intro db ctx parent current _ hA hB; exact ⟨hA, hB⟩
  | cons seg rest ih =>
    intro db ctx parent current hlive hA hB
    rw [chainLoop_cons]
    obtain ⟨hA', hB'⟩ := chainStep_AB env db ctx parent seg (chainCur current seg)
      hlive hA hB
    exact ih _ _ _ _ ((chainStep_dryRun env db ctx parent seg _).trans hlive) hA' hB'

theorem eac_files_eq (env : Env) (db : DB) (ctx : RecoveryContext) (p : String) :
    (ensure_album_chain env db ctx p).1.files = db.files := by
  by_cases hroot : p = "" ∨ p = "/"
  · rw [ensure_album_chain_root env db ctx p hroot]
  · cases hl : lookupPath ctx.album_cache (normalizeAlbumPath p) with
    | some aid => rw [ensure_album_chain_hit env db ctx p aid hroot hl]
    | none =>
      rw [ensure_album_chain_miss env db ctx p hroot hl]
      exact chainLoop_files_eq env _ db ctx none ""

theorem eac_albums_extend (env : Env) (db : DB) (ctx : RecoveryContext) (p : String) :
    ∃ dl, (ensure_album_chain env db ctx p).1.albums = db.albums ++ dl := by
  by_cases hroot : p = "" ∨ p = "/"
  · rw [ensure_album_chain_root env db ctx p hroot]
    exact ⟨[], by simp⟩
  · cases hl : lookupPath ctx.album_cache (normalizeAlbumPath p) with
    | some aid =>
      rw [ensure_album_chain_hit env db ctx p aid hroot hl]
      exact ⟨[], by simp⟩
    | none =>
      rw [ensure_album_chain_miss env db ctx p hroot hl]
      exact chainLoop_albums_extend env _ db ctx none ""

theorem eac_cache_mono (env : Env) (db : DB) (ctx : RecoveryContext) (p : String)
    (e : String × Nat) (he : e ∈ ctx.album_cache) :
    e ∈ (ensure_album_chain env db ctx p).2.1.album_cache := by
  by_cases hroot : p = "" ∨ p = "/"
  · rw [ensure_album_chain_root env db ctx p hroot]
    exact he
  · cases hl : lookupPath ctx.album_cache (normalizeAlbumPath p) with
    | some aid =>
      rw [ensure_album_chain_hit env db ctx p aid hroot hl]
      exact he
    | none =>
      rw [ensure_album_chain_miss env db ctx p hroot hl]
      exact chainLoop_cache_mono env _ db ctx none "" e he

theorem eac_lookup_preserve (env : Env) (db : DB) (ctx : RecoveryContext)
    (p q : String) (a : Nat) (h : lookupPath ctx.album_cache q = some a) :
    lookupPath (ensure_album_chain env db ctx p).2.1.album_cache q = some a := by
  by_cases hroot : p = "" ∨ p = "/"
  · rw [ensure_album_chain_root env db ctx p hroot]
    exact h
  · cases hl : lookupPath ctx.album_cache (normalizeAlbumPath p) with
    | some aid =>
      rw [ensure_album_chain_hit env db ctx p aid hroot hl]
      exact h
    | none =>
      rw [ensure_album_chain_miss env db ctx p hroot hl]
      exact chainLoop_preserves_lookup env _ db ctx none "" q a h

theorem eac_dryRun (env : Env) (db : DB) (ctx : RecoveryContext) (p : String) :
    (ensure_album_chain env db ctx p).2.1.dryRun = ctx.dryRun := by
  by_cases hroot : p = "" ∨ p = "/"
  · rw [ensure_album_chain_root env db ctx p hroot]
  · cases hl : lookupPath ctx.album_cache (normalizeAlbumPath p) with
    | some aid => rw [ensure_album_chain_hit env db ctx p aid hroot hl]
    | none =>
      rw [ensure_album_chain_miss env db ctx p hroot hl]
      exact chainLoop_dryRun env _ db ctx none ""

theorem eac_AB (env : Env) (db : DB) (ctx : RecoveryContext) (p : String)
    (hlive : ctx.dryRun = false)
    (hA : ∀ e ∈ ctx.album_cache, e.1 ∈ albumPaths db)
    (hB : ∀ a ∈ db.albums, a.path ≠ "" → (lookupPath ctx.album_cache a.path).isSome) :
    (∀ e ∈ (ensure_album_chain env db ctx p).2.1.album_cache,
      e.1 ∈ albumPaths (ensure_album_chain env db ctx p).1) ∧
    (∀ a ∈ (ensure_album_chain env db ctx p).1.albums, a.path ≠ "" →
      (lookupPath (ensure_album_chain env db ctx p).2.1.album_cache a.path).isSome) := by
  by_cases hroot : p = "" ∨ p = "/"
  · rw [ensure_album_chain_root env db ctx p hroot]
    exact ⟨hA, hB⟩
  · cases hl : lookupPath ctx.album_cache (normalizeAlbumPath p) with
    | some aid =>
      rw [ensure_album_chain_hit env db ctx p aid hroot hl]
      exact ⟨hA, hB⟩
    | none =>
      rw [ensure_album_chain_miss env db ctx p hroot hl]
      exact chainLoop_AB env _ db ctx none "" hlive hA hB

/-! ### Per-branch facts about the walk body -/

theorem repairApply_key (env : Env) (existing : ExistingFileRow) (f : FsFile)
    (target : Option Nat) (r : FileRow) :
    (repairApply env existing f target r).key = r.key := by
  unfold repairApply
  split <;> rfl

theorem repair_albums_eq (env : Env) (ctx : RecoveryContext) (db : DB)
    (existing : ExistingFileRow) (f : FsFile) (t : Option Nat) :
    (repair_existing_file env ctx db existing f t).2.albums = db.albums := by
  rw [repair_cases]
  split
  · split <;> rfl
  · rfl

theorem repair_fileKeys_eq (env : Env) (ctx : RecoveryContext) (db : DB)
    (existing : ExistingFileRow) (f : FsFile) (t : Option Nat) :
    fileKeys (repair_existing_file env ctx db existing f t).2 = fileKeys db := by
  rw [repair_cases]
  split
  · split
    · rfl
    · show fileKeys (repairUpdatedDB _ _ _ _ db) = fileKeys db
      unfold fileKeys repairUpdatedDB
      simp [List.map_map, Function.comp_def, repairApply_key]
  · rfl

theorem skipExistingBranch_spec (cfg : RunConfig) (env : Env)
    (efiles : List (String × ExistingFileRow)) (st : RunState) (f : FsFile)
    (db1 : DB) (ctx1 : RecoveryContext) (albumId : Option Nat) (stats0 : RunStats) :
    (skipExistingBranch cfg env efiles st f db1 ctx1 albumId stats0).ctx = ctx1 ∧
    (skipExistingBranch cfg env efiles st f db1 ctx1 albumId stats0).existingKeys =
      st.existingKeys ∧
    (skipExistingBranch cfg env efiles st f db1 ctx1 albumId stats0).db.albums =
      db1.albums ∧
    fileKeys (skipExistingBranch cfg env efiles st f db1 ctx1 albumId stats0).db =
      fileKeys db1 ∧
    (skipExistingBranch cfg env efiles st f db1 ctx1 albumId stats0).stats.insertedFiles =
      stats0.insertedFiles ∧
    (skipExistingBranch cfg env efiles st f db1 ctx1 albumId stats0).stats.skippedExisting =
      stats0.skippedExisting + 1 := by
  unfold skipExistingBranch
  by_cases hrep : cfg.repairExisting = true
  · rw [if_pos hrep]
    cases hfind : lookupAssoc efiles f.key with
    | none => exact ⟨rfl, rfl, rfl, rfl, rfl, rfl⟩
    | some existing =>
      refine ⟨rfl, rfl, repair_albums_eq env ctx1 db1 existing f albumId,
        repair_fileKeys_eq env ctx1 db1 existing f albumId, ?_, ?_⟩ <;>
        by_cases hu : (repair_existing_file env ctx1 db1 existing f albumId).1 = true <;>
        simp [hu]
  · rw [if_neg hrep]
    exact ⟨rfl, rfl, rfl, rfl, rfl, rfl⟩

theorem insertBranch_spec (cfg : RunConfig) (env : Env) (st : RunState) (f : FsFile)
    (db1 : DB) (ctx1 : RecoveryContext) (albumId : Option Nat) (stats0 : RunStats) :
    (insertBranch cfg env st f db1 ctx1 albumId stats0).ctx =
      { ctx1 with nextId := ctx1.nextId + 1 } ∧
    (insertBranch cfg env st f db1 ctx1 albumId stats0).existingKeys =
      f.key :: st.existingKeys ∧
    (insertBranch cfg env st f db1 ctx1 albumId stats0).db.albums = db1.albums ∧
    fileKeys (insertBranch cfg env st f db1 ctx1 albumId stats0).db =
      (if cfg.dryRun then fileKeys db1 else fileKeys db1 ++ [f.key]) ∧
    (insertBranch cfg env st f db1 ctx1 albumId stats0).stats.insertedFiles =
      stats0.insertedFiles + 1 ∧
    (insertBranch cfg env st f db1 ctx1 albumId stats0).stats.skippedExisting =
      stats0.skippedExisting := by
  unfold insertBranch
  by_cases hd : cfg.dryRun = true
  · rw [if_pos hd]  -- hmm: the inner if on db2
    refine ⟨rfl, rfl, ?_, ?_, rfl, rfl⟩ <;> simp [hd, fileKeys]
  · refine ⟨rfl, rfl, ?_, ?_, rfl, rfl⟩ <;> simp [hd, fileKeys, newFileRow]

theorem co_files (cfg : RunConfig) (env : Env) (st : RunState) (f : FsFile) :
    (chainOutcome cfg env st f).1.files = st.db.files := by
  unfold chainOutcome
  cases hdec : decide_album_path f.key cfg.albumMode with
  | none => rfl
  | some p => exact eac_files_eq env st.db st.ctx p

theorem co_albums_extend (cfg : RunConfig) (env : Env) (st : RunState) (f : FsFile) :
    ∃ dl, (chainOutcome cfg env st f).1.albums = st.db.albums ++ dl := by
  unfold chainOutcome
  cases hdec : decide_album_path f.key cfg.albumMode with
  | none => exact ⟨[], by simp⟩
  | some p => exact eac_albums_extend env st.db st.ctx p

theorem co_lookup_preserve (cfg : RunConfig) (env : Env) (st : RunState) (f : FsFile)
    (q : String) (a : Nat) (h : lookupPath st.ctx.album_cache q = some a) :
    lookupPath (chainOutcome cfg env st f).2.1.album_cache q = some a := by
  unfold chainOutcome
  cases hdec : decide_album_path f.key cfg.albumMode with
  | none => exact h
  | some p => exact eac_lookup_preserve env st.db st.ctx p q a h

theorem co_dryRun (cfg : RunConfig) (env : Env) (st : RunState) (f : FsFile) :
    (chainOutcome cfg env st f).2.1.dryRun = st.ctx.dryRun := by
  unfold chainOutcome
  cases hdec : decide_album_path f.key cfg.albumMode with
  | none => rfl
  | some p => exact eac_dryRun env st.db st.ctx p

theorem co_AB (cfg : RunConfig) (env : Env) (st : RunState) (f : FsFile)
    (hlive : st.ctx.dryRun = false)
    (hA : ∀ e ∈ st.ctx.album_cache, e.1 ∈ albumPaths st.db)
    (hB : ∀ a ∈ st.db.albums, a.path ≠ "" →
      (lookupPath st.ctx.album_cache a.path).isSome) :
    (∀ e ∈ (chainOutcome cfg env st f).2.1.album_cache,
      e.1 ∈ albumPaths (chainOutcome cfg env st f).1) ∧
    (∀ a ∈ (chainOutcome cfg env st f).1.albums, a.path ≠ "" →
      (lookupPath (chainOutcome cfg env st f).2.1.album_cache a.path).isSome) := by
  unfold chainOutcome
  cases hdec : decide_album_path f.key cfg.albumMode with
  | none => exact ⟨hA, hB⟩
  | some p => exact eac_AB env st.db st.ctx p hlive hA hB

/-- The stats change of the skipped-non-media branch. -/
def bumpNonImage (s : RunStats) : RunStats :=
  { s with scanned := s.scanned + 1, skippedNonImage := s.skippedNonImage + 1 }

/-- The three-way branch structure of one walk iteration. -/
theorem processFile_cases (cfg : RunConfig) (env : Env)
    (efiles : List (String × ExistingFileRow)) (st : RunState) (f : FsFile) :
    processFile cfg env efiles st f =
      if is_image_file env f.key = false then
        { st with stats := bumpNonImage st.stats }
      else if f.key ∈ st.existingKeys then
        skipExistingBranch cfg env efiles st f (chainOutcome cfg env st f).1
          (chainOutcome cfg env st f).2.1 (chainOutcome cfg env st f).2.2
          { st.stats with scanned := st.stats.scanned + 1 }
      else
        insertBranch cfg env st f (chainOutcome cfg env st f).1
          (chainOutcome cfg env st f).2.1 (chainOutcome cfg env st f).2.2
          { st.stats with scanned := st.stats.scanned + 1 } := by
  unfold processFile
  by_cases himg : is_image_file env f.key = true
  · simp only [himg, eq_self_iff_true, not_true, Bool.true_eq_false, if_false]
  · have himg2 : is_image_file env f.key = false := by
      cases hb : is_image_file env f.key
      · rfl
      · exact absurd hb himg
    simp only [himg2, Bool.false_eq_true, not_false_eq_true, if_true, eq_self_iff_true]
    try rfl

/-! ### Run-level invariants and the loader -/

/-- The in-memory key set and the store's key column agree. -/
def runInvA (st : RunState) : Prop := ∀ k, k ∈ st.existingKeys ↔ k ∈ fileKeys st.db

/-- Every path cache binding names a stored album path. -/
def runInvB (st : RunState) : Prop := ∀ e ∈ st.ctx.album_cache, e.1 ∈ albumPaths st.db

/-- Every non-empty stored album path resolves through the path cache. -/
def runInvC (st : RunState) : Prop :=
  ∀ a ∈ st.db.albums, a.path ≠ "" → (lookupPath st.ctx.album_cache a.path).isSome

def loadCacheStep : List (String × Nat) → Album → List (String × Nat) :=
  fun m a => if a.path ≠ "" then (a.path, a.id) :: m else m

theorem load_album_cache_eq (db : DB) :
    (load_existing_state db).album_cache = db.albums.foldl loadCacheStep [] := rfl

theorem loadCache_mem : ∀ (albums : List Album) (acc : List (String × Nat))
    (e : String × Nat), e ∈ albums.foldl loadCacheStep acc →
    e ∈ acc ∨ ∃ a, a ∈ albums ∧ e = (a.path, a.id) ∧ a.path ≠ "" := by
  intro albums
  induction albums with
  | nil => intro acc e he; exact Or.inl he
  | cons a rest ih =>
    intro acc e he
    rcases ih (loadCacheStep acc a) e he with h | ⟨a2, ha2, he2, hp2⟩
    · unfold loadCacheStep at h
      by_cases hp : a.path ≠ ""
      · rw [if_pos hp] at h
        rcases List.mem_cons.mp h with rfl | h2
        · exact Or.inr ⟨a, List.mem_cons_self a rest, rfl, hp⟩
        · exact Or.inl h2
      · rw [if_neg hp] at h
        exact Or.inl h
    · exact Or.inr ⟨a2, List.mem_cons.mpr (Or.inr ha2), he2, hp2⟩

theorem loadCache_isSome_mono : ∀ (albums : List Album) (acc : List (String × Nat))
    (p : String), (lookupPath acc p).isSome →
    (lookupPath (albums.foldl loadCacheStep acc) p).isSome := by
  intro albums
  induction albums with
  | nil => intro acc p h; exact h
  | cons a rest ih =>
    intro acc p h
    apply ih
    unfold loadCacheStep
    by_cases hp : a.path ≠ ""
    · rw [if_pos hp]
      exact lookupPath_isSome_cons _ _ _ _ h
    · rw [if_neg hp]
      exact h

theorem loadCache_isSome : ∀ (albums : List Album) (acc : List (String × Nat))
    (a : Album), a ∈ albums → a.path ≠ "" →
    (lookupPath (albums.foldl loadCacheStep acc) a.path).isSome := by
  intro albums
  induction albums with
  | nil => intro acc a ha _; cases ha
  | cons a0 rest ih =>
    intro acc a ha hp
    rw [List.foldl_cons]
    rcases List.mem_cons.mp ha with rfl | ha2
    · apply loadCache_isSome_mono
      unfold loadCacheStep
      rw [if_pos hp, lookupPath_cons_self]
      rfl
    · exact ih _ a ha2 hp

theorem initState_invA (cfg : RunConfig) (db0 : DB) : runInvA (initState cfg db0) := by
  intro k
  exact Iff.rfl

theorem initState_invB (cfg : RunConfig) (db0 : DB) : runInvB (initState cfg db0) := by
  intro e he
  rcases loadCache_mem db0.albums [] e he with h | ⟨a, ha, rfl, hp⟩
  · cases h
  · exact List.mem_map.mpr ⟨a, ha, rfl⟩

theorem initState_invC (cfg : RunConfig) (db0 : DB) : runInvC (initState cfg db0) := by
  intro a ha hp
  exact loadCache_isSome db0.albums [] a ha hp

theorem fileKeys_eq_of_files_eq {db1 db2 : DB} (h : db1.files = db2.files) :
    fileKeys db1 = fileKeys db2 := by
  unfold fileKeys
  rw [h]

theorem albumPaths_eq_of_albums_eq {l : List Album} {db1 : DB}
    (h : db1.albums = l) : albumPaths db1 = l.map (·.path) := by
  unfold albumPaths
  rw [h]

/-! ### Per-iteration preservation lemmas -/

theorem pf_dryRun (cfg : RunConfig) (env : Env)
    (efiles : List (String × ExistingFileRow)) (st : RunState) (f : FsFile) :
    (processFile cfg env efiles st f).ctx.dryRun = st.ctx.dryRun := by
  rw [processFile_cases]
  by_cases himg : is_image_file env f.key = false
  · rw [if_pos himg]
  · rw [if_neg himg]
    by_cases hk : f.key ∈ st.existingKeys
    · rw [if_pos hk, (skipExistingBranch_spec cfg env efiles st f _ _ _ _).1]
      exact co_dryRun cfg env st f
    · rw [if_neg hk, (insertBranch_spec cfg env st f _ _ _ _).1]
      exact co_dryRun cfg env st f

theorem pf_keys_mono (cfg : RunConfig) (env : Env)
    (efiles : List (String × ExistingFileRow)) (st : RunState) (f : FsFile)
    (k : String) (hk : k ∈ st.existingKeys) :
    k ∈ (processFile cfg env efiles st f).existingKeys := by
  rw [processFile_cases]
  by_cases himg : is_image_file env f.key = false
  · rw [if_pos himg]
    exact hk
  · rw [if_neg himg]
    by_cases hkey : f.key ∈ st.existingKeys
    · rw [if_pos hkey, (skipExistingBranch_spec cfg env efiles st f _ _ _ _).2.1]
      exact hk
    · rw [if_neg hkey, (insertBranch_spec cfg env st f _ _ _ _).2.1]
      exact List.mem_cons.mpr (Or.inr hk)

theorem pf_cache_eq (cfg : RunConfig) (env : Env)
    (efiles : List (String × ExistingFileRow)) (st : RunState) (f : FsFile) :
    (processFile cfg env efiles st f).ctx.album_cache = st.ctx.album_cache ∨
    (processFile cfg env efiles st f).ctx.album_cache =
      (chainOutcome cfg env st f).2.1.album_cache := by
  rw [processFile_cases]
  by_cases himg : is_image_file env f.key = false
  · rw [if_pos himg]
    exact Or.inl rfl
  · rw [if_neg himg]
    by_cases hkey : f.key ∈ st.existingKeys
    · rw [if_pos hkey, (skipExistingBranch_spec cfg env efiles st f _ _ _ _).1]
      exact Or.inr rfl
    · rw [if_neg hkey, (insertBranch_spec cfg env st f _ _ _ _).1]
      exact Or.inr rfl

theorem pf_lookup_preserve (cfg : RunConfig) (env : Env)
    (efiles : List (String × ExistingFileRow)) (st : RunState) (f : FsFile)
    (q : String) (a : Nat) (h : lookupPath st.ctx.album_cache q = some a) :
    lookupPath (processFile cfg env efiles st f).ctx.album_cache q = some a := by
  rcases pf_cache_eq cfg env efiles st f with hc | hc <;> rw [hc]
  · exact h
  · exact co_lookup_preserve cfg env st f q a h

/-- A live iteration preserves the three run invariants. -/
theorem pf_inv (cfg : RunConfig) (env : Env)
    (efiles : List (String × ExistingFileRow)) (st : RunState) (f : FsFile)
    (hcfg : cfg.dryRun = false) (hlive : st.ctx.dryRun = false)
    (hA : runInvA st) (hB : runInvB st) (hC : runInvC st) :
    runInvA (processFile cfg env efiles st f) ∧
    runInvB (processFile cfg env efiles st f) ∧
    runInvC (processFile cfg env efiles st f) := by
  have hcoAB := co_AB cfg env st f hlive hB hC
  have hcoF := co_files cfg env st f
  rw [runInvA, runInvB, runInvC, processFile_cases]
  by_cases himg : is_image_file env f.key = false
  · rw [if_pos himg]
    exact ⟨hA, hB, hC⟩
  · rw [if_neg himg]
    by_cases hkey : f.key ∈ st.existingKeys
    · rw [if_pos hkey]
      obtain ⟨hctx, hkeys, halb, hfk, -, -⟩ :=
        skipExistingBranch_spec cfg env efiles st f (chainOutcome cfg env st f).1
          (chainOutcome cfg env st f).2.1 (chainOutcome cfg env st f).2.2
          { st.stats with scanned := st.stats.scanned + 1 }
      rw [hctx, hkeys]
      refine ⟨?_, ?_, ?_⟩
      · intro k
        rw [hfk, fileKeys_eq_of_files_eq hcoF]
        exact hA k
      · intro e he
        rw [albumPaths_eq_of_albums_eq halb]
        exact hcoAB.1 e he
      · intro a ha hp
        rw [halb] at ha
        exact hcoAB.2 a ha hp
    · rw [if_neg hkey]
      obtain ⟨hctx, hkeys, halb, hfk, -, -⟩ :=
        insertBranch_spec cfg env st f (chainOutcome cfg env st f).1
          (chainOutcome cfg env st f).2.1 (chainOutcome cfg env st f).2.2
          { st.stats with scanned := st.stats.scanned + 1 }
      rw [hctx, hkeys]
      rw [if_neg (by rw [hcfg]; exact Bool.false_ne_true)] at hfk
      refine ⟨?_, ?_, ?_⟩
      · intro k
        rw [hfk, fileKeys_eq_of_files_eq hcoF]
        constructor
        · intro hmem
          rcases List.mem_cons.mp hmem with rfl | h2
          · exact List.mem_append.mpr (Or.inr (List.mem_singleton.mpr rfl))
          · exact List.mem_append.mpr (Or.inl ((hA k).mp h2))
        · intro hmem
          rcases List.mem_append.mp hmem with h2 | h2
          · exact List.mem_cons.mpr (Or.inr ((hA k).mpr h2))
          · rw [List.mem_singleton.mp h2]
            exact List.mem_cons_self _ _
      · intro e he
        rw [albumPaths_eq_of_albums_eq halb]
        exact hcoAB.1 e he
      · intro a ha hp
        rw [halb] at ha
        exact hcoAB.2 a ha hp

/-- After a non-root decided path has been walked, the per-file
postcondition: the key is registered and the normalised path resolves in
the cache. -/
theorem pf_post (cfg : RunConfig) (env : Env)
    (efiles : List (String × ExistingFileRow)) (st : RunState) (f : FsFile)
    (himg : is_image_file env f.key = true) :
    f.key ∈ (processFile cfg env efiles st f).existingKeys ∧
    (∀ p, decide_album_path f.key cfg.albumMode = some p → ¬(p = "" ∨ p = "/") →
      ∃ aid, lookupPath (processFile cfg env efiles st f).ctx.album_cache
        (normalizeAlbumPath p) = some aid) := by
  have hchain : ∀ p, decide_album_path f.key cfg.albumMode = some p →
      ¬(p = "" ∨ p = "/") →
      ∃ aid, lookupPath (chainOutcome cfg env st f).2.1.album_cache
        (normalizeAlbumPath p) = some aid := by
    intro p hp hroot
    unfold chainOutcome
    rw [hp]
    obtain ⟨aid, -, hlook⟩ := ensure_album_chain_post env st.db st.ctx p hroot
    exact ⟨aid, hlook⟩
  rw [processFile_cases, if_neg (by simp [himg])]
  by_cases hkey : f.key ∈ st.existingKeys
  · rw [if_pos hkey]
    obtain ⟨hctx, hkeys, -, -, -, -⟩ :=
      skipExistingBranch_spec cfg env efiles st f (chainOutcome cfg env st f).1
        (chainOutcome cfg env st f).2.1 (chainOutcome cfg env st f).2.2
        { st.stats with scanned := st.stats.scanned + 1 }
    rw [hctx, hkeys]
    exact ⟨hkey, hchain⟩
  · rw [if_neg hkey]
    obtain ⟨hctx, hkeys, -, -, -, -⟩ :=
      insertBranch_spec cfg env st f (chainOutcome cfg env st f).1
        (chainOutcome cfg env st f).2.1 (chainOutcome cfg env st f).2.2
        { st.stats with scanned := st.stats.scanned + 1 }
    rw [hctx, hkeys]
    exact ⟨List.mem_cons_self _ _, hchain⟩

/-! ### Fold-level lemmas over the walk -/

theorem fold_keys_mono (cfg : RunConfig) (env : Env)
    (efiles : List (String × ExistingFileRow)) :
    ∀ (files : List FsFile) (st : RunState) (k : String), k ∈ st.existingKeys →
      k ∈ (files.foldl (processFile cfg env efiles) st).existingKeys := by
  intro files
  induction files with
  | nil => intro st k hk; exact hk
  | cons f rest ih =>
    intro st k hk
    rw [List.foldl_cons]
    exact ih _ k (pf_keys_mono cfg env efiles st f k hk)

theorem fold_lookup_preserve (cfg : RunConfig) (env : Env)
    (efiles : List (String × ExistingFileRow)) :
    ∀ (files : List FsFile) (st : RunState) (q : String) (a : Nat),
      lookupPath st.ctx.album_cache q = some a →
      lookupPath (files.foldl (processFile cfg env efiles) st).ctx.album_cache q =
        some a := by
  intro files
  induction files with
  | nil => intro st q a h; exact h
  | cons f rest ih =>
    intro st q a h
    rw [List.foldl_cons]
    exact ih _ q a (pf_lookup_preserve cfg env efiles st f q a h)

theorem fold_dryRun (cfg : RunConfig) (env : Env)
    (efiles : List (String × ExistingFileRow)) :
    ∀ (files : List FsFile) (st : RunState),
      (files.foldl (processFile cfg env efiles) st).ctx.dryRun = st.ctx.dryRun := by
  intro files
  induction files with
  | nil => intro st; rfl
  | cons f rest ih =>
    intro st
    rw [List.foldl_cons, ih, pf_dryRun]

theorem fold_inv (cfg : RunConfig) (env : Env)
    (efiles : List (String × ExistingFileRow)) (hcfg : cfg.dryRun = false) :
    ∀ (files : List FsFile) (st : RunState), st.ctx.dryRun = false →
      runInvA st → runInvB st → runInvC st →
      runInvA (files.foldl (processFile cfg env efiles) st) ∧
      runInvB (files.foldl (processFile cfg env efiles) st) ∧
      runInvC (files.foldl (processFile cfg env efiles) st) := by
  intro files
  induction files with
  | nil => intro st _ hA hB hC; exact ⟨hA, hB, hC⟩
  | cons f rest ih =>
    intro st hlive hA hB hC
    rw [List.foldl_cons]
    obtain ⟨hA', hB', hC'⟩ := pf_inv cfg env efiles st f hcfg hlive hA hB hC
    exact ih _ ((pf_dryRun cfg env efiles st f).trans hlive) hA' hB' hC'

theorem fold_post (cfg : RunConfig) (env : Env)
    (efiles : List (String × ExistingFileRow)) :
    ∀ (files : List FsFile) (st : RunState) (f : FsFile), f ∈ files →
      is_image_file env f.key = true →
      f.key ∈ (files.foldl (processFile cfg env efiles) st).existingKeys ∧
      (∀ p, decide_album_path f.key cfg.albumMode = some p → ¬(p = "" ∨ p = "/") →
        ∃ aid, lookupPath
          (files.foldl (processFile cfg env efiles) st).ctx.album_cache
          (normalizeAlbumPath p) = some aid) := by
  intro files
  induction files with
  | nil => intro st f hf; cases hf
  | cons g rest ih =>
    intro st f hf himg
    rw [List.foldl_cons]
    rcases List.mem_cons.mp hf with rfl | hf2
    · obtain ⟨hk, hc⟩ := pf_post cfg env efiles st f himg
      refine ⟨fold_keys_mono cfg env efiles rest _ f.key hk, ?_⟩
      intro p hp hroot
      obtain ⟨aid, haid⟩ := hc p hp hroot
      exact ⟨aid, fold_lookup_preserve cfg env efiles rest _ _ aid haid⟩
    · exact ih _ f hf2 himg

/-! ### The second run: behaviour on a fully catalogued state -/

theorem co_unchanged (cfg : RunConfig) (env : Env) (st : RunState) (f : FsFile)
    (hres : ∀ p, decide_album_path f.key cfg.albumMode = some p →
      ¬(p = "" ∨ p = "/") →
      (lookupPath st.ctx.album_cache (normalizeAlbumPath p)).isSome) :
    (chainOutcome cfg env st f).1 = st.db ∧
    (chainOutcome cfg env st f).2.1 = st.ctx := by
  unfold chainOutcome
  cases hdec : decide_album_path f.key cfg.albumMode with
  | none => exact ⟨rfl, rfl⟩
  | some p =>
    show (ensure_album_chain env st.db st.ctx p).1 = st.db ∧
      (ensure_album_chain env st.db st.ctx p).2.1 = st.ctx
    by_cases hroot : p = "" ∨ p = "/"
    · rw [ensure_album_chain_root env st.db st.ctx p hroot]
      exact ⟨rfl, rfl⟩
    · obtain ⟨aid, haid⟩ := Option.isSome_iff_exists.mp (hres p hdec hroot)
      rw [ensure_album_chain_hit env st.db st.ctx p aid hroot haid]
      exact ⟨rfl, rfl⟩

theorem run2_step (cfg : RunConfig) (env : Env)
    (efiles : List (String × ExistingFileRow)) (st : RunState) (f : FsFile)
    (h : is_image_file env f.key = true →
      f.key ∈ st.existingKeys ∧
      ∀ p, decide_album_path f.key cfg.albumMode = some p → ¬(p = "" ∨ p = "/") →
        (lookupPath st.ctx.album_cache (normalizeAlbumPath p)).isSome) :
    (processFile cfg env efiles st f).ctx = st.ctx ∧
    (processFile cfg env efiles st f).existingKeys = st.existingKeys ∧
    (processFile cfg env efiles st f).stats.insertedFiles =
      st.stats.insertedFiles ∧
    (processFile cfg env efiles st f).stats.skippedExisting =
      st.stats.skippedExisting +
        (if is_image_file env f.key = true then 1 else 0) := by
  rw [processFile_cases]
  by_cases himg : is_image_file env f.key = false
  · rw [if_pos himg]
    refine ⟨rfl, rfl, rfl, ?_⟩
    rw [if_neg (by rw [himg]; exact fun hc => by cases hc)]
    rfl
  · have himg2 : is_image_file env f.key = true := by
      cases hb : is_image_file env f.key
      · exact absurd hb himg
      · rfl
    obtain ⟨hkey, hres⟩ := h himg2
    rw [if_neg himg, if_pos hkey]
    obtain ⟨hdb, hctx⟩ := co_unchanged cfg env st f hres
    obtain ⟨hctx', hkeys', -, -, hins, hskip⟩ :=
      skipExistingBranch_spec cfg env efiles st f (chainOutcome cfg env st f).1
        (chainOutcome cfg env st f).2.1 (chainOutcome cfg env st f).2.2
        { st.stats with scanned := st.stats.scanned + 1 }
    rw [hctx', hkeys', hins, hskip, hctx, if_pos himg2]
    exact ⟨rfl, rfl, rfl, rfl⟩

theorem run2_fold (cfg : RunConfig) (env : Env)
    (efiles : List (String × ExistingFileRow)) :
    ∀ (files : List FsFile) (st : RunState),
      (∀ f ∈ files, is_image_file env f.key = true →
        f.key ∈ st.existingKeys ∧
        ∀ p, decide_album_path f.key cfg.albumMode = some p → ¬(p = "" ∨ p = "/") →
          (lookupPath st.ctx.album_cache (normalizeAlbumPath p)).isSome) →
      (files.foldl (processFile cfg env efiles) st).stats.insertedFiles =
        st.stats.insertedFiles ∧
      (files.foldl (processFile cfg env efiles) st).ctx.created_albums =
        st.ctx.created_albums ∧
      (files.foldl (processFile cfg env efiles) st).stats.skippedExisting =
        st.stats.skippedExisting +
          files.countP (fun f => is_image_file env f.key) := by
  intro files
  induction files with
  | nil => intro st _; exact ⟨rfl, rfl, by simp⟩
  | cons f rest ih =>
    intro st hall
    rw [List.foldl_cons]
    obtain ⟨hctx, hkeys, hins, hskip⟩ :=
      run2_step cfg env efiles st f (hall f (List.mem_cons_self f rest))
    have hall' : ∀ g ∈ rest, is_image_file env g.key = true →
        g.key ∈ (processFile cfg env efiles st f).existingKeys ∧
        ∀ p, decide_album_path g.key cfg.albumMode = some p → ¬(p = "" ∨ p = "/") →
          (lookupPath (processFile cfg env efiles st f).ctx.album_cache
            (normalizeAlbumPath p)).isSome := by
      intro g hg himg
      obtain ⟨h1, h2⟩ := hall g (List.mem_cons.mpr (Or.inr hg)) himg
      rw [hkeys, hctx]
      exact ⟨h1, h2⟩
    obtain ⟨i1, i2, i3⟩ := ih (processFile cfg env efiles st f) hall'
    refine ⟨by rw [i1, hins], by rw [i2, hctx], ?_⟩
    rw [i3, hskip, List.countP_cons]
    by_cases himg : is_image_file env f.key = true <;> simp [himg] <;> omega

theorem normalizeAlbumPath_ne_empty (p : String) : normalizeAlbumPath p ≠ "" := by
  unfold normalizeAlbumPath
  intro h
  have := congrArg String.data h
  rw [strData_append] at this
  simp at this

theorem lookupPath_mem (cache : List (String × Nat)) (p : String) (a : Nat)
    (h : lookupPath cache p = some a) : (p, a) ∈ cache := by
  unfold lookupPath lookupAssoc at h
  cases hf : cache.find? (fun e => e.1 == p) with
  | none => rw [hf] at h; cases h
  | some e =>
    rw [hf] at h
    have he : e.2 = a := by simpa using h
    have hmem := List.mem_of_find?_eq_some hf
    have hpred := List.find?_some hf
    have hp : e.1 = p := by simpa using hpred
    have : (p, a) = e := by
      rw [← hp, ← he]
    rw [this]
    exact hmem

/-- Over relative keys, a decided container path is never empty or the
bare root. -/
theorem decide_some_shape (key : String) (mode : AlbumMode) (p : String)
    (h : decide_album_path key mode = some p) :
    parentStr key ≠ "." ∧ p = "/" ++ stripChar '/' (parentStr key) := by
  unfold decide_album_path at h
  by_cases hdot : parentStr key = "."
  · rw [if_pos hdot] at h
    cases h
  · rw [if_neg hdot] at h
    refine ⟨hdot, ?_⟩
    cases mode with
    | nomode => cases h
    | byDir =>
      have := Option.some.inj h
      exact this.symm
    | auto =>
      by_cases hl : looks_like_sharded_upload key = true
      · rw [if_pos hl] at h
        cases h
      · rw [if_neg hl] at h
        have := Option.some.inj h
        exact this.symm

theorem decide_some_nonroot (key : String) (mode : AlbumMode) (p : String)
    (hrel : headIs '/' key = false)
    (h : decide_album_path key mode = some p) : ¬(p = "" ∨ p = "/") := by
  obtain ⟨hdot, hp⟩ := decide_some_shape key mode p h
  have hparent := parentStr_of_rel key hrel
  by_cases hempty : (pathParts key).dropLast.isEmpty
  · rw [hparent, if_pos hempty] at hdot
    exact absurd rfl hdot
  · have hlist : (pathParts key).dropLast ≠ [] := by
      intro hnil
      rw [hnil] at hempty
      exact hempty rfl
    have hjoin : parentStr key = ⟨joinSlashL ((pathParts key).dropLast)⟩ := by
      rw [hparent, if_neg hempty]
    rw [hjoin, stripChar_joinSlash_parts key] at hp
    have hjne : joinSlashL ((pathParts key).dropLast) ≠ [] := by
      rcases hl2 : (pathParts key).dropLast with _ | ⟨g, gs⟩
      · exact absurd hl2 hlist
      · exact joinSlashL_ne_nil g gs
          (pathParts_mem key g (List.mem_of_mem_dropLast
            (hl2 ▸ List.mem_cons_self g gs))).1
    have hdata : p.data = '/' :: joinSlashL ((pathParts key).dropLast) := by
      rw [hp, strData_append]
      rfl
    intro hor
    rcases hor with rfl | rfl
    · rw [show ("" : String).data = [] from rfl] at hdata
      cases hdata
    · rw [show ("/" : String).data = ['/'] from rfl] at hdata
      have := List.cons.inj hdata
      exact hjne this.2.symm

/-- Configuration and tree used by the concrete run witnesses. -/
def testCfgW : RunConfig :=
  { albumMode := .auto, dryRun := false, publicAlbums := false,
    repairExisting := false }

def wFiles : List FsFile :=
  [⟨"vacation/beach.jpg", 10⟩, ⟨"vacation/dune.png", 20⟩,
   ⟨"2024/03/u.gif", 5⟩, ⟨"notes.txt", 1⟩]

/-- C1: idempotence of reconciliation.  Commit a live run over any tree
of relative storage keys, then run again with identical configuration:
the second run inserts zero items, creates zero containers, counts every
eligible media file as skipped-existing, and every decided container
path resolves through the path cache loaded from the committed store. -/
theorem spec_c1_idempotence (cfg : RunConfig) (env : Env) (db0 : DB)
    (files : List FsFile) (hlive : cfg.dryRun = false)
    (hkeys : ∀ f ∈ files, headIs '/' f.key = false) :
    (runRecover cfg env (runRecover cfg env db0 files).db files).stats.insertedFiles
      = 0 ∧
    (runRecover cfg env (runRecover cfg env db0 files).db files).ctx.created_albums
      = 0 ∧
    (runRecover cfg env (runRecover cfg env db0 files).db files).stats.skippedExisting
      = files.countP (fun f => is_image_file env f.key) ∧
    (∀ f ∈ files, is_image_file env f.key = true →
      ∀ p, decide_album_path f.key cfg.albumMode = some p →
        (lookupPath
          (load_existing_state (runRecover cfg env db0 files).db).album_cache
          (normalizeAlbumPath p)).isSome) := by
  obtain ⟨hA1, hB1, hC1⟩ := fold_inv cfg env (load_existing_state db0).existing_files
    hlive files (initState cfg db0) hlive (initState_invA cfg db0)
    (initState_invB cfg db0) (initState_invC cfg db0)
  have hmain : ∀ f ∈ files, is_image_file env f.key = true →
      f.key ∈ fileKeys (runRecover cfg env db0 files).db ∧
      (∀ p, decide_album_path f.key cfg.albumMode = some p →
        (lookupPath
          (load_existing_state (runRecover cfg env db0 files).db).album_cache
          (normalizeAlbumPath p)).isSome) := by
    intro f hf himg
    obtain ⟨hk, hc⟩ := fold_post cfg env (load_existing_state db0).existing_files
      files (initState cfg db0) f hf himg
    constructor
    · exact (hA1 f.key).mp hk
    · intro p hp
      have hroot := decide_some_nonroot f.key cfg.albumMode p (hkeys f hf) hp
      obtain ⟨aid, haid⟩ := hc p hp hroot
      have hmem := lookupPath_mem _ _ _ haid
      have hpath : normalizeAlbumPath p ∈
          albumPaths (runRecover cfg env db0 files).db :=
        hB1 (normalizeAlbumPath p, aid) hmem
      obtain ⟨a2, ha2, ha2p⟩ := List.mem_map.mp hpath
      rw [load_album_cache_eq, ← ha2p]
      exact loadCache_isSome _ [] a2 ha2
        (by rw [ha2p]; exact normalizeAlbumPath_ne_empty p)
  obtain ⟨h1, h2, h3⟩ := run2_fold cfg env
    (load_existing_state (runRecover cfg env db0 files).db).existing_files files
    (initState cfg (runRecover cfg env db0 files).db)
    (by
      intro f hf himg
      obtain ⟨hk1, hk2⟩ := hmain f hf himg
      exact ⟨hk1, fun p hp _ => hk2 p hp⟩)
  exact ⟨h1.trans rfl, h2.trans rfl, h3.trans (Nat.zero_add _),
    fun f hf himg p hp => (hmain f hf himg).2 p hp⟩

/-- Witness for C1 on a concrete four-file tree over an empty store. -/
theorem spec_c1_idempotence_witness :
    (runRecover testCfgW wEnv (runRecover testCfgW wEnv ⟨[], []⟩ wFiles).db
      wFiles).stats.insertedFiles = 0 ∧
    (runRecover testCfgW wEnv (runRecover testCfgW wEnv ⟨[], []⟩ wFiles).db
      wFiles).ctx.created_albums = 0 ∧
    (runRecover testCfgW wEnv (runRecover testCfgW wEnv ⟨[], []⟩ wFiles).db
      wFiles).stats.skippedExisting =
      wFiles.countP (fun f => is_image_file wEnv f.key) ∧
    (∀ f ∈ wFiles, is_image_file wEnv f.key = true →
      ∀ p, decide_album_path f.key testCfgW.albumMode = some p →
        (lookupPath
          (load_existing_state (runRecover testCfgW wEnv ⟨[], []⟩ wFiles).db).album_cache
          (normalizeAlbumPath p)).isSome) :=
  spec_c1_idempotence testCfgW wEnv ⟨[], []⟩ wFiles rfl (by decide)

/-! ### C8: a preview run simulates a live run -/

theorem slugLoop_mono (persisted cache : List String) (base : String) :
    ∀ (fuel k : Nat) (cand : String) (counter : Nat) (r : String × List String),
      slugLoop persisted cache base cand counter fuel = some r →
      slugLoop persisted cache base cand counter (fuel + k) = some r := by
  intro fuel
  induction fuel with
  | zero => intro k cand counter r h; simp [slugLoop] at h
  | succ fuel ih =>
    intro k cand counter r h
    rw [show fuel + 1 + k = (fuel + k) + 1 by omega]
    by_cases hocc : cand ∈ persisted ∨ cand ∈ cache
    · rw [slugLoop, if_pos hocc] at h ⊢
      exact ih k _ _ r h
    · rw [slugLoop, if_neg hocc] at h ⊢
      exact h

theorem slugLoop_congr (pL pD cache : List String) (base : String)
    (hsub : ∀ s ∈ pD, s ∈ pL)
    (hcov : ∀ s ∈ pL, s ∉ cache → s ∈ pD) :
    ∀ (fuel : Nat) (cand : String) (counter : Nat),
      slugLoop pL cache base cand counter fuel =
        slugLoop pD cache base cand counter fuel := by
  intro fuel
  induction fuel with
  | zero => intro cand counter; rfl
  | succ fuel ih =>
    intro cand counter
    have hiff : (cand ∈ pL ∨ cand ∈ cache) ↔ (cand ∈ pD ∨ cand ∈ cache) := by
      constructor
      · intro h
        rcases h with h | h
        · by_cases hc : cand ∈ cache
          · exact Or.inr hc
          · exact Or.inl (hcov cand h hc)
        · exact Or.inr h
      · intro h
        rcases h with h | h
        · exact Or.inl (hsub cand h)
        · exact Or.inr h
    by_cases hocc : cand ∈ pL ∨ cand ∈ cache
    · rw [slugLoop, if_pos hocc, slugLoop, if_pos (hiff.mp hocc)]
      exact ih _ _
    · rw [slugLoop, if_neg hocc, slugLoop, if_neg (fun h => hocc (hiff.mpr h))]

/-- The slug allocator returns the same result against the live store as
against the preview's untouched store, provided every slug the live
store gained is registered in the in-memory set. -/
theorem ensure_unique_slug_congr (pL pD cache : List String) (base digest : String)
    (hsub : ∀ s ∈ pD, s ∈ pL)
    (hcov : ∀ s ∈ pL, s ∉ cache → s ∈ pD) :
    ensure_unique_slug pL cache base digest =
      ensure_unique_slug pD cache base digest := by
  obtain ⟨rL, hrL⟩ := Option.isSome_iff_exists.mp
    (slugLoop_isSome pL cache base (firstCandidate cache base digest))
  obtain ⟨rD, hrD⟩ := Option.isSome_iff_exists.mp
    (slugLoop_isSome pD cache base (firstCandidate cache base digest))
  have hL2 := slugLoop_mono pL cache base (slugFuel pL cache) (slugFuel pD cache)
    _ 1 rL hrL
  have hD2 := slugLoop_mono pD cache base (slugFuel pD cache) (slugFuel pL cache)
    _ 1 rD hrD
  rw [show slugFuel pD cache + slugFuel pL cache =
    slugFuel pL cache + slugFuel pD cache by omega] at hD2
  have hcongr := slugLoop_congr pL pD cache base hsub hcov
    (slugFuel pL cache + slugFuel pD cache) (firstCandidate cache base digest) 1
  rw [hL2, hD2] at hcongr
  have hr : rL = rD := Option.some.inj hcongr
  unfold ensure_unique_slug
  rw [hrL, hrD, hr]

/-- The live store extends the initial store by albums whose slugs are
all registered in the given slug set. -/
def dbRel (db0 dbL : DB) (slugs : List String) : Prop :=
  ∃ dl, dbL.albums = db0.albums ++ dl ∧ ∀ a ∈ dl, a.slug ∈ slugs

theorem dbRel_slug_sub (db0 dbL : DB) (slugs : List String)
    (h : dbRel db0 dbL slugs) : ∀ s ∈ albumSlugs db0, s ∈ albumSlugs dbL := by
  obtain ⟨dl, hdl, -⟩ := h
  intro s hs
  unfold albumSlugs at hs ⊢
  rw [hdl, List.map_append]
  exact List.mem_append.mpr (Or.inl hs)

theorem dbRel_slug_cov (db0 dbL : DB) (slugs : List String)
    (h : dbRel db0 dbL slugs) :
    ∀ s ∈ albumSlugs dbL, s ∉ slugs → s ∈ albumSlugs db0 := by
  obtain ⟨dl, hdl, hsl⟩ := h
  intro s hs hns
  unfold albumSlugs at hs ⊢
  rw [hdl, List.map_append] at hs
  rcases List.mem_append.mp hs with h2 | h2
  · exact h2
  · obtain ⟨a, ha, rfl⟩ := List.mem_map.mp h2
    exact absurd (hsl a ha) hns

theorem chainStep_bisim (env : Env) (db0 dbL : DB) (ctxL : RecoveryContext)
    (parent : Option Nat) (seg cur : String)
    (hlive : ctxL.dryRun = false)
    (hrel : dbRel db0 dbL ctxL.slug_cache) :
    (chainStep env db0 { ctxL with dryRun := true } parent seg cur).2.1 =
      { (chainStep env dbL ctxL parent seg cur).2.1 with dryRun := true } ∧
    (chainStep env db0 { ctxL with dryRun := true } parent seg cur).2.2 =
      (chainStep env dbL ctxL parent seg cur).2.2 ∧
    (chainStep env db0 { ctxL with dryRun := true } parent seg cur).1 = db0 ∧
    dbRel db0 (chainStep env dbL ctxL parent seg cur).1
      (chainStep env dbL ctxL parent seg cur).2.1.slug_cache := by
  have hcache : ({ ctxL with dryRun := true } : RecoveryContext).album_cache =
    ctxL.album_cache := rfl
  cases hcur : lookupPath ctxL.album_cache cur with
  | some aid =>
    rw [chainStep_hit env dbL ctxL parent seg cur aid hcur,
      chainStep_hit env db0 { ctxL with dryRun := true } parent seg cur aid
        (by rw [hcache]; exact hcur)]
    exact ⟨rfl, rfl, rfl, hrel⟩
  | none =>
    rw [chainStep_miss env dbL ctxL parent seg cur hcur,
      chainStep_miss env db0 { ctxL with dryRun := true } parent seg cur
        (by rw [hcache]; exact hcur)]
    have hslug : ensure_unique_slug (albumSlugs dbL) ctxL.slug_cache (slugify seg)
        (env.sha1hex6 cur) =
      ensure_unique_slug (albumSlugs db0) ctxL.slug_cache (slugify seg)
        (env.sha1hex6 cur) :=
      ensure_unique_slug_congr _ _ _ _ _ (dbRel_slug_sub db0 dbL _ hrel)
        (dbRel_slug_cov db0 dbL _ hrel)
    refine ⟨?_, rfl, ?_, ?_⟩
    · rw [hslug]
      try rfl
    · have hd : ({ ctxL with dryRun := true } : RecoveryContext).dryRun = true := rfl
      rw [if_pos hd]
    · rw [if_neg (by rw [hlive]; exact Bool.false_ne_true)]
      obtain ⟨dl, hdl, hsl⟩ := hrel
      refine ⟨dl ++ [mkAlbum ctxL.nextId seg
        (ensure_unique_slug (albumSlugs dbL) ctxL.slug_cache (slugify seg)
          (env.sha1hex6 cur)).1 parent ctxL.publicAlbums cur env.now], ?_, ?_⟩
      · show dbL.albums ++ _ = db0.albums ++ _
        rw [hdl, List.append_assoc]
      · intro a ha
        have hspec := ensure_unique_slug_spec (albumSlugs dbL) ctxL.slug_cache
          (slugify seg) (env.sha1hex6 cur)
        show a.slug ∈ (ensure_unique_slug (albumSlugs dbL) ctxL.slug_cache
          (slugify seg) (env.sha1hex6 cur)).2
        rw [hspec.2.2]
        rcases List.mem_append.mp ha with h2 | h2
        · exact List.mem_cons.mpr (Or.inr (hsl a h2))
        · have ha3 : a = mkAlbum ctxL.nextId seg
              (ensure_unique_slug (albumSlugs dbL) ctxL.slug_cache (slugify seg)
                (env.sha1hex6 cur)).1 parent ctxL.publicAlbums cur env.now := by
            simpa using h2
          rw [ha3]
          exact List.mem_cons.mpr (Or.inl rfl)

theorem chainLoop_bisim (env : Env) (db0 : DB) : ∀ (segs : List String) (dbL : DB)
    (ctxL : RecoveryContext) (parent : Option Nat) (current : String),
    ctxL.dryRun = false → dbRel db0 dbL ctxL.slug_cache →
    (chainLoop env segs db0 { ctxL with dryRun := true } parent current).2 =
      { (chainLoop env segs dbL ctxL parent current).2 with dryRun := true } ∧
    (chainLoop env segs db0 { ctxL with dryRun := true } parent current).1 = db0 ∧
    dbRel db0 (chainLoop env segs dbL ctxL parent current).1
      (chainLoop env segs dbL ctxL parent current).2.slug_cache := by
  intro segs
  induction segs with
  | nil => intro dbL ctxL parent current _ hrel; exact ⟨rfl, rfl, hrel⟩
  | cons seg rest ih =>
    intro dbL ctxL parent current hlive hrel
    obtain ⟨h1, h2, h3, h4⟩ := chainStep_bisim env db0 dbL ctxL parent seg
      (chainCur current seg) hlive hrel
    rw [chainLoop_cons, chainLoop_cons, h1, h2, h3]
    exact ih (chainStep env dbL ctxL parent seg (chainCur current seg)).1
      (chainStep env dbL ctxL parent seg (chainCur current seg)).2.1
      (some (chainStep env dbL ctxL parent seg (chainCur current seg)).2.2)
      (chainCur current seg)
      ((chainStep_dryRun env dbL ctxL parent seg _).trans hlive) h4

theorem eac_bisim (env : Env) (db0 dbL : DB) (ctxL : RecoveryContext) (p : String)
    (hlive : ctxL.dryRun = false) (hrel : dbRel db0 dbL ctxL.slug_cache) :
    (ensure_album_chain env db0 { ctxL with dryRun := true } p).2.1 =
      { (ensure_album_chain env dbL ctxL p).2.1 with dryRun := true } ∧
    (ensure_album_chain env db0 { ctxL with dryRun := true } p).2.2 =
      (ensure_album_chain env dbL ctxL p).2.2 ∧
    (ensure_album_chain env db0 { ctxL with dryRun := true } p).1 = db0 ∧
    dbRel db0 (ensure_album_chain env dbL ctxL p).1
      (ensure_album_chain env dbL ctxL p).2.1.slug_cache := by
  have hcache : ({ ctxL with dryRun := true } : RecoveryContext).album_cache =
    ctxL.album_cache := rfl
  by_cases hroot : p = "" ∨ p = "/"
  · rw [ensure_album_chain_root env dbL ctxL p hroot,
      ensure_album_chain_root env db0 { ctxL with dryRun := true } p hroot]
    exact ⟨rfl, rfl, rfl, hrel⟩
  · cases hl : lookupPath ctxL.album_cache (normalizeAlbumPath p) with
    | some aid =>
      rw [ensure_album_chain_hit env dbL ctxL p aid hroot hl,
        ensure_album_chain_hit env db0 { ctxL with dryRun := true } p aid hroot
          (by rw [hcache]; exact hl)]
      exact ⟨rfl, rfl, rfl, hrel⟩
    | none =>
      rw [ensure_album_chain_miss env dbL ctxL p hroot hl,
        ensure_album_chain_miss env db0 { ctxL with dryRun := true } p hroot
          (by rw [hcache]; exact hl)]
      obtain ⟨b1, b2, b3⟩ := chainLoop_bisim env db0
        (if (albumPathParts p).isEmpty then [""] else albumPathParts p)
        dbL ctxL none "" hlive hrel
      refine ⟨?_, ?_, b2, b3⟩
      · rw [b1]
      · rw [b1]

theorem co_bisim (cfg : RunConfig) (env : Env) (db0 : DB) (stL stD : RunState)
    (f : FsFile) (hctx : stD.ctx = { stL.ctx with dryRun := true })
    (hdb : stD.db = db0) (hlive : stL.ctx.dryRun = false)
    (hrel : dbRel db0 stL.db stL.ctx.slug_cache) :
    (chainOutcome { cfg with dryRun := true } env stD f).2.1 =
      { (chainOutcome cfg env stL f).2.1 with dryRun := true } ∧
    (chainOutcome { cfg with dryRun := true } env stD f).2.2 =
      (chainOutcome cfg env stL f).2.2 ∧
    (chainOutcome { cfg with dryRun := true } env stD f).1 = db0 ∧
    dbRel db0 (chainOutcome cfg env stL f).1
      (chainOutcome cfg env stL f).2.1.slug_cache := by
  unfold chainOutcome
  have hmode : ({ cfg with dryRun := true } : RunConfig).albumMode = cfg.albumMode :=
    rfl
  rw [hmode]
  cases hdec : decide_album_path f.key cfg.albumMode with
  | none => exact ⟨by rw [hctx], rfl, hdb, hrel⟩
  | some p =>
    rw [hctx, hdb]
    exact eac_bisim env db0 stL.db stL.ctx p hlive hrel

theorem repair_fst_eq (env : Env) (ctx ctx' : RecoveryContext) (db db' : DB)
    (existing : ExistingFileRow) (f : FsFile) (t : Option Nat)
    (hids : ctx'.album_ids = ctx.album_ids) :
    (repair_existing_file env ctx' db' existing f t).1 =
      (repair_existing_file env ctx db existing f t).1 := by
  have hn : repairNeedsUpdate env ctx' existing f (repairTarget existing t) =
      repairNeedsUpdate env ctx existing f (repairTarget existing t) := by
    unfold repairNeedsUpdate repairValid
    rw [hids]
  rw [repair_cases, repair_cases, hn]
  by_cases h : repairNeedsUpdate env ctx existing f (repairTarget existing t) = true
  · rw [if_pos h, if_pos h]
    by_cases hd : ctx'.dryRun = true <;> by_cases hd2 : ctx.dryRun = true <;>
      simp [hd, hd2]
  · rw [if_neg h, if_neg h]

theorem repair_dry_db (env : Env) (ctx : RecoveryContext) (db : DB)
    (existing : ExistingFileRow) (f : FsFile) (t : Option Nat)
    (hd : ctx.dryRun = true) :
    (repair_existing_file env ctx db existing f t).2 = db := by
  rw [repair_cases]
  by_cases h : repairNeedsUpdate env ctx existing f (repairTarget existing t) = true <;>
    simp [h, hd]

theorem skip_bisim (cfg : RunConfig) (env : Env)
    (efiles : List (String × ExistingFileRow)) (db0 : DB) (stL stD : RunState)
    (f : FsFile) (dbL1 : DB) (ctxL1 : RecoveryContext) (aid : Option Nat)
    (stats0 : RunStats) :
    (skipExistingBranch { cfg with dryRun := true } env efiles stD f db0
        { ctxL1 with dryRun := true } aid stats0).ctx =
      { (skipExistingBranch cfg env efiles stL f dbL1 ctxL1 aid stats0).ctx with
          dryRun := true } ∧
    (skipExistingBranch { cfg with dryRun := true } env efiles stD f db0
        { ctxL1 with dryRun := true } aid stats0).stats =
      (skipExistingBranch cfg env efiles stL f dbL1 ctxL1 aid stats0).stats ∧
    (skipExistingBranch { cfg with dryRun := true } env efiles stD f db0
        { ctxL1 with dryRun := true } aid stats0).existingKeys = stD.existingKeys ∧
    (skipExistingBranch cfg env efiles stL f dbL1 ctxL1 aid stats0).existingKeys =
      stL.existingKeys ∧
    (skipExistingBranch { cfg with dryRun := true } env efiles stD f db0
        { ctxL1 with dryRun := true } aid stats0).db = db0 ∧
    (skipExistingBranch cfg env efiles stL f dbL1 ctxL1 aid stats0).db.albums =
      dbL1.albums ∧
    (skipExistingBranch cfg env efiles stL f dbL1 ctxL1 aid stats0).ctx = ctxL1 := by
  unfold skipExistingBranch
  have hrep : ({ cfg with dryRun := true } : RunConfig).repairExisting =
    cfg.repairExisting := rfl
  rw [hrep]
  by_cases hr : cfg.repairExisting = true
  · rw [if_pos hr, if_pos hr]
    cases hfind : lookupAssoc efiles f.key with
    | none => exact ⟨rfl, rfl, rfl, rfl, rfl, rfl, rfl⟩
    | some existing =>
      have hfst := repair_fst_eq env ctxL1 { ctxL1 with dryRun := true } dbL1 db0
        existing f aid rfl
      have hdry := repair_dry_db env { ctxL1 with dryRun := true } db0 existing f
        aid rfl
      refine ⟨rfl, ?_, rfl, rfl, ?_, repair_albums_eq env ctxL1 dbL1 existing f aid,
        rfl⟩
      · by_cases hu : (repair_existing_file env ctxL1 dbL1 existing f aid).1 = true
        · have huD : (repair_existing_file env { ctxL1 with dryRun := true } db0
              existing f aid).1 = true := by rw [hfst]; exact hu
          simp only [hu, huD, if_true]
        · have hu2 : (repair_existing_file env ctxL1 dbL1 existing f aid).1 = false := by
            cases hb : (repair_existing_file env ctxL1 dbL1 existing f aid).1
            · rfl
            · exact absurd hb hu
          have huD : (repair_existing_file env { ctxL1 with dryRun := true } db0
              existing f aid).1 = false := by rw [hfst]; exact hu2
          simp only [hu2, huD, Bool.false_eq_true, if_false]
      · exact hdry
  · rw [if_neg hr, if_neg hr]
    exact ⟨rfl, rfl, rfl, rfl, rfl, rfl, rfl⟩

theorem insert_bisim (cfg : RunConfig) (env : Env) (db0 : DB) (stL stD : RunState)
    (f : FsFile) (dbL1 : DB) (ctxL1 : RecoveryContext) (aid : Option Nat)
    (stats0 : RunStats) :
    (insertBranch { cfg with dryRun := true } env stD f db0
        { ctxL1 with dryRun := true } aid stats0).ctx =
      { (insertBranch cfg env stL f dbL1 ctxL1 aid stats0).ctx with
          dryRun := true } ∧
    (insertBranch { cfg with dryRun := true } env stD f db0
        { ctxL1 with dryRun := true } aid stats0).stats =
      (insertBranch cfg env stL f dbL1 ctxL1 aid stats0).stats ∧
    (insertBranch { cfg with dryRun := true } env stD f db0
        { ctxL1 with dryRun := true } aid stats0).existingKeys =
      f.key :: stD.existingKeys ∧
    (insertBranch cfg env stL f dbL1 ctxL1 aid stats0).existingKeys =
      f.key :: stL.existingKeys ∧
    (insertBranch { cfg with dryRun := true } env stD f db0
        { ctxL1 with dryRun := true } aid stats0).db = db0 ∧
    (insertBranch cfg env stL f dbL1 ctxL1 aid stats0).db.albums = dbL1.albums ∧
    (insertBranch cfg env stL f dbL1 ctxL1 aid stats0).ctx =
      { ctxL1 with nextId := ctxL1.nextId + 1 } := by
  unfold insertBranch
  refine ⟨rfl, rfl, rfl, rfl, rfl, ?_, rfl⟩
  show (if cfg.dryRun then dbL1
    else { dbL1 with files := dbL1.files ++ [newFileRow env f ctxL1.nextId aid] }).albums
      = dbL1.albums
  by_cases hd : cfg.dryRun = true
  · rw [if_pos hd]
  · rw [if_neg hd]

theorem dbRel_of_albums (db0 X Y : DB) (s : List String)
    (h : dbRel db0 X s) (halb : Y.albums = X.albums) : dbRel db0 Y s := by
  obtain ⟨dl, hdl, hsl⟩ := h
  exact ⟨dl, by rw [halb, hdl], hsl⟩

/-- The live/preview simulation relation between run states. -/
def stateRel (db0 : DB) (stL stD : RunState) : Prop :=
  stD.ctx = { stL.ctx with dryRun := true } ∧
  stD.stats = stL.stats ∧
  stD.existingKeys = stL.existingKeys ∧
  stD.db = db0 ∧
  dbRel db0 stL.db stL.ctx.slug_cache ∧
  stL.ctx.dryRun = false

theorem pf_bisim (cfg : RunConfig) (env : Env)
    (efiles : List (String × ExistingFileRow)) (db0 : DB) (stL stD : RunState)
    (f : FsFile) (hrel : stateRel db0 stL stD) :
    stateRel db0 (processFile cfg env efiles stL f)
      (processFile { cfg with dryRun := true } env efiles stD f) := by
  obtain ⟨hctx, hstats, hkeys, hdb, hdbrel, hlive⟩ := hrel
  rw [processFile_cases, processFile_cases]
  by_cases himg : is_image_file env f.key = false
  · rw [if_pos himg, if_pos himg]
    exact ⟨by rw [hctx], by rw [hstats], hkeys, hdb, hdbrel, hlive⟩
  · rw [if_neg himg, if_neg himg, hkeys, hstats]
    obtain ⟨b1, b2, b3, b4⟩ := co_bisim cfg env db0 stL stD f hctx hdb hlive hdbrel
    rw [b1, b2, b3]
    have hlive' : (chainOutcome cfg env stL f).2.1.dryRun = false :=
      (co_dryRun cfg env stL f).trans hlive
    by_cases hk : f.key ∈ stL.existingKeys
    · rw [if_pos hk, if_pos hk]
      obtain ⟨s1, s2, s3, s4, s5, s6, s7⟩ := skip_bisim cfg env efiles db0 stL stD f
        (chainOutcome cfg env stL f).1 (chainOutcome cfg env stL f).2.1
        (chainOutcome cfg env stL f).2.2
        { stL.stats with scanned := stL.stats.scanned + 1 }
      refine ⟨?_, s2, ?_, s5, ?_, ?_⟩
      · rw [s1]
      · rw [s3, s4, hkeys]
      · refine dbRel_of_albums db0 (chainOutcome cfg env stL f).1 _ _ ?_ s6
        rw [s7]
        exact b4
      · rw [s7]
        exact hlive'
    · rw [if_neg hk, if_neg hk]
      obtain ⟨i1, i2, i3, i4, i5, i6, i7⟩ := insert_bisim cfg env db0 stL stD f
        (chainOutcome cfg env stL f).1 (chainOutcome cfg env stL f).2.1
        (chainOutcome cfg env stL f).2.2
        { stL.stats with scanned := stL.stats.scanned + 1 }
      refine ⟨?_, i2, ?_, i5, ?_, ?_⟩
      · rw [i1]
      · rw [i3, i4, hkeys]
      · refine dbRel_of_albums db0 (chainOutcome cfg env stL f).1 _ _ ?_ i6
        rw [i7]
        exact b4
      · rw [i7]
        exact hlive'

theorem fold_bisim (cfg : RunConfig) (env : Env)
    (efiles : List (String × ExistingFileRow)) (db0 : DB) :
    ∀ (files : List FsFile) (stL stD : RunState), stateRel db0 stL stD →
      stateRel db0 (files.foldl (processFile cfg env efiles) stL)
        (files.foldl (processFile { cfg with dryRun := true } env efiles) stD) := by
  intro files
  induction files with
  | nil => intro stL stD h; exact h
  | cons f rest ih =>
    intro stL stD h
    rw [List.foldl_cons, List.foldl_cons]
    exact ih _ _ (pf_bisim cfg env efiles db0 stL stD f h)

/-- C8: preview fidelity.  Over the same tree and the same initial
store, a preview run and a live run report identical statistics (so in
particular identical inserted / repaired / created counts), their
in-memory caches (path-to-id, slug set, known ids, fresh-id counter) and
key set advance identically — including container deduplication inside
the preview — and the preview writes nothing to the store. -/
theorem spec_c8_preview_fidelity (cfg : RunConfig) (env : Env) (db0 : DB)
    (files : List FsFile) (hlive : cfg.dryRun = false) :
    (runRecover { cfg with dryRun := true } env db0 files).stats =
      (runRecover cfg env db0 files).stats ∧
    (runRecover { cfg with dryRun := true } env db0 files).ctx.album_cache =
      (runRecover cfg env db0 files).ctx.album_cache ∧
    (runRecover { cfg with dryRun := true } env db0 files).ctx.slug_cache =
      (runRecover cfg env db0 files).ctx.slug_cache ∧
    (runRecover { cfg with dryRun := true } env db0 files).ctx.album_ids =
      (runRecover cfg env db0 files).ctx.album_ids ∧
    (runRecover { cfg with dryRun := true } env db0 files).ctx.created_albums =
      (runRecover cfg env db0 files).ctx.created_albums ∧
    (runRecover { cfg with dryRun := true } env db0 files).existingKeys =
      (runRecover cfg env db0 files).existingKeys ∧
    (runRecover { cfg with dryRun := true } env db0 files).db = db0 := by
  have hinit : stateRel db0 (initState cfg db0)
      (initState { cfg with dryRun := true } db0) :=
    ⟨rfl, rfl, rfl, rfl, ⟨[], by simp [initState], by intro a ha; cases ha⟩, hlive⟩
  obtain ⟨hctx, hstats, hkeys, hdb, -, -⟩ := fold_bisim cfg env
    (load_existing_state db0).existing_files db0 files (initState cfg db0)
    (initState { cfg with dryRun := true } db0) hinit
  simp only [runRecover]
  exact ⟨hstats, by rw [hctx], by rw [hctx], by rw [hctx], by rw [hctx], hkeys, hdb⟩

/-- Witness for C8 on the concrete four-file tree over an empty store. -/
theorem spec_c8_preview_fidelity_witness :
    (runRecover { testCfgW with dryRun := true } wEnv ⟨[], []⟩ wFiles).stats =
      (runRecover testCfgW wEnv ⟨[], []⟩ wFiles).stats ∧
    (runRecover { testCfgW with dryRun := true } wEnv ⟨[], []⟩ wFiles).ctx.album_cache =
      (runRecover testCfgW wEnv ⟨[], []⟩ wFiles).ctx.album_cache ∧
    (runRecover { testCfgW with dryRun := true } wEnv ⟨[], []⟩ wFiles).ctx.slug_cache =
      (runRecover testCfgW wEnv ⟨[], []⟩ wFiles).ctx.slug_cache ∧
    (runRecover { testCfgW with dryRun := true } wEnv ⟨[], []⟩ wFiles).ctx.album_ids =
      (runRecover testCfgW wEnv ⟨[], []⟩ wFiles).ctx.album_ids ∧
    (runRecover { testCfgW with dryRun := true } wEnv ⟨[], []⟩ wFiles).ctx.created_albums =
      (runRecover testCfgW wEnv ⟨[], []⟩ wFiles).ctx.created_albums ∧
    (runRecover { testCfgW with dryRun := true } wEnv ⟨[], []⟩ wFiles).existingKeys =
      (runRecover testCfgW wEnv ⟨[], []⟩ wFiles).existingKeys ∧
    (runRecover { testCfgW with dryRun := true } wEnv ⟨[], []⟩ wFiles).db =
      (⟨[], []⟩ : DB) :=
  spec_c8_preview_fidelity testCfgW wEnv ⟨[], []⟩ wFiles rfl

/-! ### Uniqueness of container paths and slugs across runs (C4) -/

theorem albumPaths_congr {db1 db2 : DB} (h : db1.albums = db2.albums) :
    albumPaths db1 = albumPaths db2 := by
  unfold albumPaths
  rw [h]

theorem albumSlugs_congr {db1 db2 : DB} (h : db1.albums = db2.albums) :
    albumSlugs db1 = albumSlugs db2 := by
  unfold albumSlugs
  rw [h]

theorem nodup_append_singleton {α : Type} (l : List α) (x : α)
    (hl : l.Nodup) (hx : x ∉ l) : (l ++ [x]).Nodup := by
  rw [List.nodup_append]
  refine ⟨hl, List.nodup_singleton x, ?_⟩
  intro a ha hax
  rcases List.mem_singleton.mp hax with rfl
  exact hx ha

theorem chainStep_nodup (env : Env) (db : DB) (ctx : RecoveryContext)
    (parent : Option Nat) (seg cur : String) (hcur : cur ≠ "")
    (hB : ∀ a ∈ db.albums, a.path ≠ "" → (lookupPath ctx.album_cache a.path).isSome)
    (hp : (albumPaths db).Nodup) (hs : (albumSlugs db).Nodup) :
    (albumPaths (chainStep env db ctx parent seg cur).1).Nodup ∧
    (albumSlugs (chainStep env db ctx parent seg cur).1).Nodup := by
  cases hl : lookupPath ctx.album_cache cur with
  | some aid =>
    rw [chainStep_hit env db ctx parent seg cur aid hl]
    exact ⟨hp, hs⟩
  | none =>
    rw [chainStep_miss env db ctx parent seg cur hl]
    by_cases hd : ctx.dryRun
    · show (albumPaths (if ctx.dryRun then db else _)).Nodup ∧
        (albumSlugs (if ctx.dryRun then db else _)).Nodup
      rw [if_pos hd]
      exact ⟨hp, hs⟩
    · show (albumPaths (if ctx.dryRun then db else _)).Nodup ∧
        (albumSlugs (if ctx.dryRun then db else _)).Nodup
      rw [if_neg hd]
      constructor
      · show (List.map (·.path) (db.albums ++ [_])).Nodup
        rw [List.map_append]
        refine nodup_append_singleton _ _ hp ?_
        intro hmem
        rcases List.mem_map.mp hmem with ⟨a, ha, hap⟩
        have hap2 : a.path = cur := hap
        have hne : a.path ≠ "" := by rw [hap2]; exact hcur
        have := hB a ha hne
        rw [hap2, hl] at this
        cases this
      · show (List.map (·.slug) (db.albums ++ [_])).Nodup
        rw [List.map_append]
        refine nodup_append_singleton _ _ hs ?_
        exact (ensure_unique_slug_spec (albumSlugs db) ctx.slug_cache (slugify seg)
          (env.sha1hex6 cur)).1

theorem chainLoop_nodup (env : Env) : ∀ (segs : List String) (db : DB)
    (ctx : RecoveryContext) (parent : Option Nat) (current : String),
    ctx.dryRun = false →
    (∀ e ∈ ctx.album_cache, e.1 ∈ albumPaths db) →
    (∀ a ∈ db.albums, a.path ≠ "" → (lookupPath ctx.album_cache a.path).isSome) →
    (albumPaths db).Nodup → (albumSlugs db).Nodup →
    (albumPaths (chainLoop env segs db ctx parent current).1).Nodup ∧
    (albumSlugs (chainLoop env segs db ctx parent current).1).Nodup := by
  intro segs
  induction segs with
  | nil => intro db ctx parent current _ _ _ hp hs; exact ⟨hp, hs⟩
  | cons seg rest ih =>
    intro db ctx parent current hlive hA hB hp hs
    rw [chainLoop_cons]
    obtain ⟨hp2, hs2⟩ := chainStep_nodup env db ctx parent seg (chainCur current seg)
      (chainCur_ne_empty current seg) hB hp hs
    obtain ⟨hA2, hB2⟩ := chainStep_AB env db ctx parent seg (chainCur current seg)
      hlive hA hB
    exact ih _ _ _ _ ((chainStep_dryRun env db ctx parent seg _).trans hlive)
      hA2 hB2 hp2 hs2

theorem eac_nodup (env : Env) (db : DB) (ctx : RecoveryContext) (p : String)
    (hlive : ctx.dryRun = false)
    (hA : ∀ e ∈ ctx.album_cache, e.1 ∈ albumPaths db)
    (hB : ∀ a ∈ db.albums, a.path ≠ "" → (lookupPath ctx.album_cache a.path).isSome)
    (hp : (albumPaths db).Nodup) (hs : (albumSlugs db).Nodup) :
    (albumPaths (ensure_album_chain env db ctx p).1).Nodup ∧
    (albumSlugs (ensure_album_chain env db ctx p).1).Nodup := by
  by_cases hroot : p = "" ∨ p = "/"
  · rw [ensure_album_chain_root env db ctx p hroot]
    exact ⟨hp, hs⟩
  · cases hl : lookupPath ctx.album_cache (normalizeAlbumPath p) with
    | some aid =>
      rw [ensure_album_chain_hit env db ctx p aid hroot hl]
      exact ⟨hp, hs⟩
    | none =>
      rw [ensure_album_chain_miss env db ctx p hroot hl]
      exact chainLoop_nodup env _ db ctx none "" hlive hA hB hp hs

theorem co_nodup (cfg : RunConfig) (env : Env) (st : RunState) (f : FsFile)
    (hlive : st.ctx.dryRun = false)
    (hA : ∀ e ∈ st.ctx.album_cache, e.1 ∈ albumPaths st.db)
    (hB : ∀ a ∈ st.db.albums, a.path ≠ "" →
      (lookupPath st.ctx.album_cache a.path).isSome)
    (hp : (albumPaths st.db).Nodup) (hs : (albumSlugs st.db).Nodup) :
    (albumPaths (chainOutcome cfg env st f).1).Nodup ∧
    (albumSlugs (chainOutcome cfg env st f).1).Nodup := by
  unfold chainOutcome
  cases hdec : decide_album_path f.key cfg.albumMode with
  | none => exact ⟨hp, hs⟩
  | some p => exact eac_nodup env st.db st.ctx p hlive hA hB hp hs

theorem pf_nodup (cfg : RunConfig) (env : Env)
    (efiles : List (String × ExistingFileRow)) (st : RunState) (f : FsFile)
    (hlive : st.ctx.dryRun = false) (hB : runInvB st) (hC : runInvC st)
    (hp : (albumPaths st.db).Nodup) (hs : (albumSlugs st.db).Nodup) :
    (albumPaths (processFile cfg env efiles st f).db).Nodup ∧
    (albumSlugs (processFile cfg env efiles st f).db).Nodup := by
  have hco := co_nodup cfg env st f hlive hB hC hp hs
  rw [processFile_cases]
  by_cases himg : is_image_file env f.key = false
  · rw [if_pos himg]
    exact ⟨hp, hs⟩
  · rw [if_neg himg]
    by_cases hk : f.key ∈ st.existingKeys
    · rw [if_pos hk]
      have halb := (skipExistingBranch_spec cfg env efiles st f
        (chainOutcome cfg env st f).1 (chainOutcome cfg env st f).2.1
        (chainOutcome cfg env st f).2.2
        { st.stats with scanned := st.stats.scanned + 1 }).2.2.1
      rw [albumPaths_congr halb, albumSlugs_congr halb]
      exact hco
    · rw [if_neg hk]
      have halb := (insertBranch_spec cfg env st f
        (chainOutcome cfg env st f).1 (chainOutcome cfg env st f).2.1
        (chainOutcome cfg env st f).2.2
        { st.stats with scanned := st.stats.scanned + 1 }).2.2.1
      rw [albumPaths_congr halb, albumSlugs_congr halb]
      exact hco

theorem fold_nodup (cfg : RunConfig) (env : Env)
    (efiles : List (String × ExistingFileRow)) (hcfg : cfg.dryRun = false) :
    ∀ (files : List FsFile) (st : RunState), st.ctx.dryRun = false →
      runInvA st → runInvB st → runInvC st →
      (albumPaths st.db).Nodup → (albumSlugs st.db).Nodup →
      (albumPaths (files.foldl (processFile cfg env efiles) st).db).Nodup ∧
      (albumSlugs (files.foldl (processFile cfg env efiles) st).db).Nodup := by
  intro files
  induction files with
  | nil => intro st _ _ _ _ hp hs; exact ⟨hp, hs⟩
  | cons f rest ih =>
    intro st hlive hA hB hC hp hs
    rw [List.foldl_cons]
    obtain ⟨hp2, hs2⟩ := pf_nodup cfg env efiles st f hlive hB hC hp hs
    obtain ⟨hA2, hB2, hC2⟩ := pf_inv cfg env efiles st f hcfg hlive hA hB hC
    exact ih _ ((pf_dryRun cfg env efiles st f).trans hlive) hA2 hB2 hC2 hp2 hs2

theorem chainStep_dry_db (env : Env) (db : DB) (ctx : RecoveryContext)
    (parent : Option Nat) (seg cur : String) (hd : ctx.dryRun = true) :
    (chainStep env db ctx parent seg cur).1 = db := by
  cases hl : lookupPath ctx.album_cache cur with
  | some aid => rw [chainStep_hit env db ctx parent seg cur aid hl]
  | none =>
    rw [chainStep_miss env db ctx parent seg cur hl]
    show (if ctx.dryRun then db else _) = db
    rw [if_pos hd]

theorem chainLoop_dry_db (env : Env) : ∀ (segs : List String) (db : DB)
    (ctx : RecoveryContext) (parent : Option Nat) (current : String),
    ctx.dryRun = true → (chainLoop env segs db ctx parent current).1 = db := by
  intro segs
  induction segs with
  | nil => intro db ctx parent current _; rfl
  | cons seg rest ih =>
    intro db ctx parent current hd
    rw [chainLoop_cons]
    rw [ih _ _ _ _ ((chainStep_dryRun env db ctx parent seg _).trans hd)]
    exact chainStep_dry_db env db ctx parent seg _ hd

theorem eac_dry_db (env : Env) (db : DB) (ctx : RecoveryContext) (p : String)
    (hd : ctx.dryRun = true) : (ensure_album_chain env db ctx p).1 = db := by
  by_cases hroot : p = "" ∨ p = "/"
  · rw [ensure_album_chain_root env db ctx p hroot]
  · cases hl : lookupPath ctx.album_cache (normalizeAlbumPath p) with
    | some aid => rw [ensure_album_chain_hit env db ctx p aid hroot hl]
    | none =>
      rw [ensure_album_chain_miss env db ctx p hroot hl]
      exact chainLoop_dry_db env _ db ctx none "" hd

theorem co_dry_db (cfg : RunConfig) (env : Env) (st : RunState) (f : FsFile)
    (hd : st.ctx.dryRun = true) : (chainOutcome cfg env st f).1 = st.db := by
  unfold chainOutcome
  cases hdec : decide_album_path f.key cfg.albumMode with
  | none => rfl
  | some p => exact eac_dry_db env st.db st.ctx p hd

theorem pf_dry_albums (cfg : RunConfig) (env : Env)
    (efiles : List (String × ExistingFileRow)) (st : RunState) (f : FsFile)
    (hd : st.ctx.dryRun = true) :
    (processFile cfg env efiles st f).db.albums = st.db.albums := by
  have hco : (chainOutcome cfg env st f).1.albums = st.db.albums := by
    rw [co_dry_db cfg env st f hd]
  rw [processFile_cases]
  by_cases himg : is_image_file env f.key = false
  · rw [if_pos himg]
  · rw [if_neg himg]
    by_cases hk : f.key ∈ st.existingKeys
    · rw [if_pos hk]
      rw [(skipExistingBranch_spec cfg env efiles st f
        (chainOutcome cfg env st f).1 (chainOutcome cfg env st f).2.1
        (chainOutcome cfg env st f).2.2
        { st.stats with scanned := st.stats.scanned + 1 }).2.2.1]
      exact hco
    · rw [if_neg hk]
      rw [(insertBranch_spec cfg env st f
        (chainOutcome cfg env st f).1 (chainOutcome cfg env st f).2.1
        (chainOutcome cfg env st f).2.2
        { st.stats with scanned := st.stats.scanned + 1 }).2.2.1]
      exact hco

theorem fold_dry_albums (cfg : RunConfig) (env : Env)
    (efiles : List (String × ExistingFileRow)) :
    ∀ (files : List FsFile) (st : RunState), st.ctx.dryRun = true →
      (files.foldl (processFile cfg env efiles) st).db.albums = st.db.albums := by
  intro files
  induction files with
  | nil => intro st _; rfl
  | cons f rest ih =>
    intro st hd
    rw [List.foldl_cons]
    rw [ih _ ((pf_dryRun cfg env efiles st f).trans hd)]
    exact pf_dry_albums cfg env efiles st f hd

/-- A single recovery run, preview or live, keeps stored container paths
and slugs pairwise distinct. -/
theorem run_nodup (cfg : RunConfig) (env : Env) (db0 : DB) (files : List FsFile)
    (hp : (albumPaths db0).Nodup) (hs : (albumSlugs db0).Nodup) :
    (albumPaths (runRecover cfg env db0 files).db).Nodup ∧
    (albumSlugs (runRecover cfg env db0 files).db).Nodup := by
  by_cases hd : cfg.dryRun = true
  · have halb : (runRecover cfg env db0 files).db.albums = db0.albums := by
      unfold runRecover
      exact fold_dry_albums cfg env _ files (initState cfg db0) hd
    rw [albumPaths_congr halb, albumSlugs_congr halb]
    exact ⟨hp, hs⟩
  · have hcfg : cfg.dryRun = false := by
      cases hb : cfg.dryRun
      · rfl
      · exact absurd hb hd
    unfold runRecover
    exact fold_nodup cfg env _ hcfg files (initState cfg db0) hcfg
      (initState_invA cfg db0) (initState_invB cfg db0) (initState_invC cfg db0) hp hs

/-- The stored state left behind by a sequence of recovery runs, each
with its own configuration, environment and file listing. -/
def runSeq : List (RunConfig × Env × List FsFile) → DB → DB
  | [], db => db
  | r :: rs, db => runSeq rs (runRecover r.1 r.2.1 db r.2.2).db

theorem runSeq_nodup : ∀ (runs : List (RunConfig × Env × List FsFile)) (db0 : DB),
    (albumPaths db0).Nodup → (albumSlugs db0).Nodup →
    (albumPaths (runSeq runs db0)).Nodup ∧ (albumSlugs (runSeq runs db0)).Nodup := by
  intro runs
  induction runs with
  | nil => intro db0 hp hs; exact ⟨hp, hs⟩
  | cons r rs ih =>
    intro db0 hp hs
    obtain ⟨hp2, hs2⟩ := run_nodup r.1 r.2.1 db0 r.2.2 hp hs
    exact ih _ hp2 hs2

/-- C4: uniqueness invariant.  Starting from a store whose container
paths and slugs are pairwise distinct, any sequence of recovery runs
preserves both distinctness properties; and the slug allocator registers
the chosen slug in the in-memory known-slug set before returning, so a
later allocation in the same run — against any persisted slug table —
never returns that slug again. -/
theorem spec_c4_uniqueness (runs : List (RunConfig × Env × List FsFile)) (db0 : DB)
    (hp : (albumPaths db0).Nodup) (hs : (albumSlugs db0).Nodup) :
    ((albumPaths (runSeq runs db0)).Nodup ∧ (albumSlugs (runSeq runs db0)).Nodup) ∧
    (∀ persisted cache base digest,
      (ensure_unique_slug persisted cache base digest).2 =
        (ensure_unique_slug persisted cache base digest).1 :: cache) ∧
    (∀ persisted1 persisted2 cache base1 digest1 base2 digest2,
      (ensure_unique_slug persisted2
          (ensure_unique_slug persisted1 cache base1 digest1).2 base2 digest2).1 ≠
        (ensure_unique_slug persisted1 cache base1 digest1).1) := by
  refine ⟨runSeq_nodup runs db0 hp hs, ?_, ?_⟩
  · intro persisted cache base digest
    exact (ensure_unique_slug_spec persisted cache base digest).2.2
  · intro persisted1 persisted2 cache base1 digest1 base2 digest2 heq
    have hreg := (ensure_unique_slug_spec persisted1 cache base1 digest1).2.2
    have hfree := (ensure_unique_slug_spec persisted2
      (ensure_unique_slug persisted1 cache base1 digest1).2 base2 digest2).2.1
    rw [heq, hreg] at hfree
    exact hfree (List.mem_cons_self _ _)

/-- Witness for C4: one live run over an empty store. -/
theorem spec_c4_uniqueness_witness :
    ((albumPaths (runSeq [(testCfgW, wEnv, wFiles)] ⟨[], []⟩)).Nodup ∧
     (albumSlugs (runSeq [(testCfgW, wEnv, wFiles)] ⟨[], []⟩)).Nodup) ∧
    (∀ persisted cache base digest,
      (ensure_unique_slug persisted cache base digest).2 =
        (ensure_unique_slug persisted cache base digest).1 :: cache) ∧
    (∀ persisted1 persisted2 cache base1 digest1 base2 digest2,
      (ensure_unique_slug persisted2
          (ensure_unique_slug persisted1 cache base1 digest1).2 base2 digest2).1 ≠
        (ensure_unique_slug persisted1 cache base1 digest1).1) :=
  spec_c4_uniqueness [(testCfgW, wEnv, wFiles)] ⟨[], []⟩ (by decide) (by decide)

end Cloudimgs

/-! ### Concrete evaluations validating the embedding -/

section ConcreteChecks
open Cloudimgs
example : decide_album_path "2024/03/x.jpg" .auto = none := by decide
example : decide_album_path "vacation/beach.jpg" .auto = some "/vacation" := by decide
example : decide_album_path "vacation/beach.jpg" .nomode = none := by decide
example : decide_album_path "2024/03/x.jpg" .byDir = some "/2024/03" := by decide
example : decide_album_path "x.jpg" .byDir = none := by decide
example : decide_album_path "a/./b.jpg" .byDir = some "/a" := by decide
example : parentStr "/a/b" = "/a" := by decide
example : parentStr "/a" = "/" := by decide
example : parentStr "" = "." := by decide

-- a tiny end-to-end run: two files in one folder share an album; one
-- sharded key stays unattached under auto mode
def testEnv : Env :=
  { guessType := fun _ => none, sha1hex6 := fun _ => "abcdef", now := "T" }

def testCfg : RunConfig :=
  { albumMode := .auto, dryRun := false, publicAlbums := false, repairExisting := false }

def testFiles : List Cloudimgs.FsFile :=
  [⟨"vacation/beach.jpg", 10⟩, ⟨"vacation/dune.png", 20⟩, ⟨"2024/03/u.gif", 5⟩, ⟨"notes.txt", 1⟩]

example :
    (runRecover testCfg testEnv ⟨[], []⟩ testFiles).stats.insertedFiles = 3 := by decide
example :
    (runRecover testCfg testEnv ⟨[], []⟩ testFiles).ctx.created_albums = 1 := by decide
example :
    (runRecover testCfg testEnv ⟨[], []⟩ testFiles).stats.skippedNonImage = 1 := by decide
example :
    ((runRecover testCfg testEnv ⟨[], []⟩ testFiles).db.albums.map (·.path)) = ["/vacation"] := by
  decide
example :
    ((runRecover testCfg testEnv ⟨[], []⟩ testFiles).db.albums.map (·.slug)) = ["vacation"] := by
  decide
-- idempotence on the example: second run inserts and creates nothing
example :
    (runRecover testCfg testEnv (runRecover testCfg testEnv ⟨[], []⟩ testFiles).db
      testFiles).stats.insertedFiles = 0 := by decide
example :
    (runRecover testCfg testEnv (runRecover testCfg testEnv ⟨[], []⟩ testFiles).db
      testFiles).ctx.created_albums = 0 := by decide
-- slugify behaviour
example : slugify "My Album!" = "my-album" := by decide
example : slugify "  " = "album" := by decide
end ConcreteChecks
